import Mathlib

/-!
# Verification of `credit_balance_flipper.py`

A shallow embedding of the QFX credit-balance flipper.  Python strings are
modelled as `List Char`; Python `float` values as exact decimals
(`PyFloat.finite num scale` denoting `num / 10 ^ scale`, plus infinities and
NaN); fallible code returns `Except`.  An unguarded negative index on an
empty Python list (an `IndexError` at runtime) is modelled by `Err.indexError`.

Rendering of floats (`pyFloatStr`) follows Python's `str(float)` on the
decimal range relevant here: shortest fractional digits, always at least one
fractional digit (`150.0`), sign prefix for negative values.  Python's switch
to exponent notation for magnitudes below `1e-4` or at `1e16` and above, and
binary-double rounding of decimals with more than 17 significant digits, are
outside the scope of this model.

Text is modelled at the ASCII level: `isPySpace` is exactly the ASCII part
of Python's Unicode whitespace (so `str.strip()` / `str.isspace()` / the
whitespace handling of `float()` agree with the model on ASCII text), and
`float()`'s acceptance of non-ASCII Unicode decimal digits is out of scope.
Theorems whose hypotheses depend on parse success or failure therefore
restrict the quantified text to ASCII where that matters.
-/

namespace CreditBalanceFlipper

/-- Characters Python's `str.strip` / `str.isspace` / `float()` treat as
whitespace, restricted to the ASCII range: tab, newline, vertical tab, form
feed, carriage return, the four information-separator controls
`\x1c`–`\x1f`, and space. -/
def isPySpace (c : Char) : Bool :=
  c = ' ' || c = '\t' || c = '\n' || c = '\r' || c = '\x0b' || c = '\x0c' ||
  c = '\x1c' || c = '\x1d' || c = '\x1e' || c = '\x1f'

/-- ASCII decimal digit test. -/
def isDigitChar (c : Char) : Bool :=
  '0' ≤ c && c ≤ '9'

/-- Numeric value of an ASCII digit character. -/
def digitVal (c : Char) : Nat :=
  c.toNat - '0'.toNat

/-- Character for a digit value below 10. -/
def digitChar (d : Nat) : Char :=
  Char.ofNat ('0'.toNat + d)

/-- Python `str.strip()` (no arguments): remove leading and trailing
whitespace. -/
def pyStrip (s : List Char) : List Char :=
  ((s.dropWhile isPySpace).reverse.dropWhile isPySpace).reverse

/-- Python `str.upper()` (ASCII behaviour, which covers QFX tag names). -/
def pyUpper (s : List Char) : List Char :=
  s.map Char.toUpper

/-- Python `str.isspace()`: nonempty and all whitespace. -/
def pyIsSpace (s : List Char) : Bool :=
  !s.isEmpty && s.all isPySpace

/-- Python `str.replace(old, new)` with `old` nonempty: replace every
non-overlapping occurrence of `old`, scanning left to right.  (For empty
`old`, Python interleaves `new` around every character; the flipper only
calls this with a nonempty `old`.)  `fuel` bounds the recursion; any
`fuel ≥ s.length` gives the replace-all semantics. -/
def pyReplaceFuel (fuel : Nat) (s old new : List Char) : List Char :=
  match fuel, s with
  | 0, s => s
  | _ + 1, [] => []
  | fuel + 1, c :: rest =>
    if old ≠ [] ∧ old.isPrefixOf (c :: rest) then
      new ++ pyReplaceFuel fuel ((c :: rest).drop old.length) old new
    else
      c :: pyReplaceFuel fuel rest old new

/-- Python `str.replace(old, new)` for nonempty `old` (the only call shape in
the source: `old` is the stripped text of a successfully parsed float, hence
nonempty). -/
def pyReplace (s old new : List Char) : List Char :=
  pyReplaceFuel s.length s old new

/-- The value of a Python `float`: an exact decimal `num / 10 ^ scale`,
or an infinity, or NaN.  Binary-double rounding is abstracted away; sign
tests, negation and absolute value are exact in both models. -/
inductive PyFloat : Type
  | finite (num : Int) (scale : Nat)
  | inf
  | ninf
  | nan
  deriving DecidableEq, Repr

namespace PyFloat

/-- `x > 0` on Python floats (NaN compares false). -/
def isPos : PyFloat → Bool
  | finite n _ => 0 < n
  | inf => true
  | _ => false

/-- `x < 0` on Python floats (NaN compares false). -/
def isNeg : PyFloat → Bool
  | finite n _ => n < 0
  | ninf => true
  | _ => false

/-- Python `abs`. -/
def pyAbs : PyFloat → PyFloat
  | finite n s => finite n.natAbs s
  | inf => inf
  | ninf => inf
  | nan => nan

/-- Python unary minus. -/
def pyNeg : PyFloat → PyFloat
  | finite n s => finite (-n) s
  | inf => ninf
  | ninf => inf
  | nan => nan

/-- The exact rational denoted by a finite float (junk on non-finite). -/
def toRat : PyFloat → ℚ
  | finite n s => (n : ℚ) / (10 : ℚ) ^ s
  | _ => 0

end PyFloat

/-- Little-endian base-10 digit list of `n`; `fuel ≥ n` gives all digits. -/
def digitsAux (fuel n : Nat) : List Nat :=
  match fuel with
  | 0 => []
  | fuel + 1 => if n = 0 then [] else n % 10 :: digitsAux fuel (n / 10)

/-- Decimal digit characters of `n`, most significant first; `0` renders as
`"0"`. -/
def charsOfNat (n : Nat) : List Char :=
  if n = 0 then ['0'] else ((digitsAux n n).map digitChar).reverse

/-- Value of a most-significant-first digit-character list, with accumulator:
the way a left-to-right scan of digits builds a number. -/
def digitListVal (acc : Nat) : List Char → Nat
  | [] => acc
  | c :: rest => digitListVal (acc * 10 + digitVal c) rest

/-- Scan `digit (["_"] digit)*` continuations: accumulate value and digit
count, stopping (without consuming) at the first character that is neither a
digit nor an underscore directly followed by a digit. -/
def parseDigitsGo (acc cnt : Nat) : List Char → Nat × Nat × List Char
  | [] => (acc, cnt, [])
  | c :: rest =>
    if isDigitChar c then parseDigitsGo (acc * 10 + digitVal c) (cnt + 1) rest
    else if c = '_' then
      match rest with
      | c2 :: rest2 =>
        if isDigitChar c2 then parseDigitsGo (acc * 10 + digitVal c2) (cnt + 1) rest2
        else (acc, cnt, c :: rest)
      | [] => (acc, cnt, [c])
    else (acc, cnt, c :: rest)

/-- Parse a Python `digitpart`: `digit (["_"] digit)*`.  Returns the value,
the number of digits, and the unconsumed rest; `none` if no leading digit. -/
def parseUdigits : List Char → Option (Nat × Nat × List Char)
  | c :: rest =>
    if isDigitChar c then some (parseDigitsGo (digitVal c) 1 rest) else none
  | [] => none

/-- Parse an optional sign followed by a `digitpart` (exponent body). -/
def parseSignedDigits (l : List Char) : Option (Int × List Char) :=
  match l with
  | c :: rest =>
    if c = '+' then (parseUdigits rest).map fun p => ((p.1 : Int), p.2.2)
    else if c = '-' then (parseUdigits rest).map fun p => (-(p.1 : Int), p.2.2)
    else (parseUdigits l).map fun p => ((p.1 : Int), p.2.2)
  | [] => none

/-- Parse an optional exponent part `("e"|"E") [sign] digitpart`; absence
yields exponent `0`. -/
def parseExp (l : List Char) : Option (Int × List Char) :=
  match l with
  | c :: rest =>
    if c = 'e' ∨ c = 'E' then parseSignedDigits rest else some (0, l)
  | [] => some (0, [])

/-- Integer-first float literal body: `digitpart ["." [digitpart]] [exp]`. -/
def parseIntFirst (l : List Char) : Option (Nat × Nat × Int × List Char) :=
  match parseUdigits l with
  | some (i, _, r1) =>
    match r1 with
    | c :: r2 =>
      if c = '.' then
        match parseUdigits r2 with
        | some (f, cf, r3) =>
          match parseExp r3 with
          | some (e, r4) => some (i * 10 ^ cf + f, cf, e, r4)
          | none => none
        | none =>
          match parseExp r2 with
          | some (e, r4) => some (i, 0, e, r4)
          | none => none
      else
        match parseExp r1 with
        | some (e, r4) => some (i, 0, e, r4)
        | none => none
    | [] =>
      match parseExp r1 with
      | some (e, r4) => some (i, 0, e, r4)
      | none => none
  | none => none

/-- Parse an unsigned Python float literal body:
`digitpart ["." [digitpart]] [exp]` or `"." digitpart [exp]`.
Returns mantissa digits value `m`, fraction digit count `c`, exponent `e`,
and the unconsumed rest; the denoted value is `m * 10 ^ (e - c)`. -/
def parseNumber (l : List Char) : Option (Nat × Nat × Int × List Char) :=
  match l with
  | c :: rest =>
    if c = '.' then
      match parseUdigits rest with
      | some (f, cf, r1) =>
        match parseExp r1 with
        | some (e, r2) => some (f, cf, e, r2)
        | none => none
      | none => none
    else parseIntFirst l
  | [] => parseIntFirst []

/-- ASCII lower-casing, the fragment of Python's `str.lower` the keyword
comparison needs. -/
def asciiLower (c : Char) : Char :=
  if 'A' ≤ c ∧ c ≤ 'Z' then Char.ofNat (c.toNat + 32) else c

/-- Keyword / number dispatch after the optional sign of a float literal. -/
def pyFloatCore (neg : Bool) (l : List Char) : Option PyFloat :=
  let low := l.map asciiLower
  if low = ['i', 'n', 'f'] ∨ low = ['i', 'n', 'f', 'i', 'n', 'i', 't', 'y'] then
    some (if neg then .ninf else .inf)
  else if low = ['n', 'a', 'n'] then
    some .nan
  else
    match parseNumber l with
    | some (m, c, e, []) =>
      let mag : PyFloat :=
        if (c : Int) ≤ e then .finite (m * 10 ^ (e - (c : Int)).toNat) 0
        else .finite m ((c : Int) - e).toNat
      some (if neg then mag.pyNeg else mag)
    | _ => none

/-- Python `float(s)`: strip whitespace, optional sign, then
`inf`/`infinity`/`nan` (case-insensitive) or a decimal literal with optional
fraction, optional exponent and single underscores between digits.  `none`
models Python's `ValueError`. -/
def pyFloatOfChars (s : List Char) : Option PyFloat :=
  match pyStrip s with
  | c :: rest =>
    if c = '+' then pyFloatCore false rest
    else if c = '-' then pyFloatCore true rest
    else pyFloatCore false (c :: rest)
  | [] => pyFloatCore false []

/-- Left-pad a digit string with `'0'` to length `k`. -/
def padZeros (k : Nat) (l : List Char) : List Char :=
  List.replicate (k - l.length) '0' ++ l

/-- Drop trailing `'0'` characters, keeping at least one digit. -/
def stripTrailZeros (l : List Char) : List Char :=
  let r := (l.reverse.dropWhile (fun c => c = '0')).reverse
  if r = [] then ['0'] else r

/-- The unsigned part of `str(float)` for the decimal `N / 10 ^ s`: integer
digits, a dot, and the fractional digits with trailing zeros removed (at
least one digit on each side). -/
def renderBody (N s : Nat) : List Char :=
  charsOfNat (N / 10 ^ s) ++ '.' ::
    (if s = 0 then ['0'] else stripTrailZeros (padZeros s (charsOfNat (N % 10 ^ s))))

/-- Python `str(float)` restricted to the plain-notation decimal range (see
module docstring): minimal fractional digits, at least one (`150.0`), minus
sign for negatives; `inf`/`-inf`/`nan` for the non-finite values. -/
def pyFloatStr : PyFloat → List Char
  | .finite n s => (if n < 0 then ['-'] else []) ++ renderBody n.natAbs s
  | .inf => ['i', 'n', 'f']
  | .ninf => ['-', 'i', 'n', 'f']
  | .nan => ['n', 'a', 'n']

/-- `flip_value` (source lines 317–343): trim, parse as a float, and when the
sign disagrees with the requested direction, replace the trimmed text inside
the original string by the rendered corrected value.  `Except.error ()` is the
`ValueError` that `float()` raises on unparseable text (re-raised with context
by the caller). -/
def flip_value (value_string : List Char) (make_negative : Bool := true) :
    Except Unit (List Char × Bool) :=
  let trimmed_value := pyStrip value_string
  match pyFloatOfChars trimmed_value with
  | none => .error ()
  | some as_float =>
    if (as_float.isPos && make_negative) || (as_float.isNeg && !make_negative) then
      .ok (pyReplace value_string trimmed_value
             (pyFloatStr (if make_negative then as_float.pyAbs.pyNeg else as_float.pyAbs)),
           true)
    else
      .ok (value_string, false)

/-- Module constant `TARGET_CATEGORY`. -/
def TARGET_CATEGORY : List Char := "<LEDGERBAL>".data

/-- Module constant `END_TARGET_CATEGORY` (unused by the parser). -/
def END_TARGET_CATEGORY : List Char := "</LEDGERBAL>".data

/-- Module constant `TARGET_PROPERTY`. -/
def TARGET_PROPERTY : List Char := "<BALAMT>".data

/-- `ParserState` enum from the source. -/
inductive ParserState : Type
  | TAG
  | VALUE
  deriving DecidableEq, Repr

/-- Failures that can escape `update_qfx_contents`: the `SyntaxError` and
`ValueError` it raises deliberately (with their structured diagnostic
payloads), and the `IndexError` Python raises when `category_stack[-1]` or
`category_stack.pop()` hits an empty list. -/
inductive Err : Type
  | syntaxError (closingTag : List Char) (enclosing : List Char) (line : Nat)
      (stackTrace : List (List Char))
  | valueError (offending : List Char) (line : Nat) (path : List (List Char))
  | indexError
  deriving DecidableEq, Repr

/-- Python `category[1:-1]`: strip the angle brackets off a stack entry. -/
def stripAngle (s : List Char) : List Char :=
  (s.drop 1).dropLast

/-- The local state of one `update_qfx_contents` call. -/
structure Config : Type where
  state : ParserState
  current_tag : List Char
  current_tag_is_leaf : Bool
  category_stack : List (List Char)
  output : List (List Char)
  buffer : List Char
  value_found_count : Nat
  value_flipped_count : Nat
  line_number : Nat
  deriving DecidableEq, Repr

/-- Parser state at the top of `update_qfx_contents` (source lines 214–229). -/
def initConfig : Config :=
  { state := .VALUE
    current_tag := []
    current_tag_is_leaf := false
    category_stack := []
    output := []
    buffer := []
    value_found_count := 0
    value_flipped_count := 0
    line_number := 1 }

/-- Closing-tag handling (source lines 249–271).  `tag` is the stripped tag
text (starting with `"</"`). -/
def handleClosingTag (tag : List Char) (cfg : Config) : Except Err Config :=
  let closed_category := pyUpper ('<' :: tag.drop 2)
  if closed_category = cfg.current_tag then
    match cfg.category_stack.getLast? with
    | none => .error .indexError  -- category_stack.pop() on an empty list
    | some t =>
        .ok { cfg with current_tag := t, category_stack := cfg.category_stack.dropLast }
  else if closed_category ∈ cfg.category_stack then
    let closed_tag_index : Nat :=
      cfg.category_stack.length - 1 - cfg.category_stack.reverse.indexOf closed_category
    let new_tag_index : Int := (closed_tag_index : Int) - 1
    if 0 < new_tag_index then
      .ok { cfg with
        current_tag := cfg.category_stack.getD new_tag_index.toNat []
        category_stack := cfg.category_stack.take new_tag_index.toNat }
    else
      .ok { cfg with current_tag := [], category_stack := [] }
  else
    match cfg.category_stack.getLast? with
    | none => .error .indexError  -- category_stack[-1] while formatting the message
    | some enclosing =>
        .error (.syntaxError tag enclosing cfg.line_number
          (cfg.category_stack.map stripAngle))

/-- Opening-tag handling (source lines 272–278). -/
def handleOpeningTag (tag : List Char) (cfg : Config) : Config :=
  { cfg with
    category_stack :=
      if cfg.current_tag_is_leaf then cfg.category_stack
      else cfg.category_stack ++ [cfg.current_tag]
    current_tag := pyUpper tag
    current_tag_is_leaf := false
    state := .VALUE }

/-- Shared tail of value-fragment handling (source lines 301–306): mark the
active tag a leaf when the fragment has non-whitespace content, emit the
fragment, clear the buffer, return to `TAG` state, and bump the counters. -/
def finishValue (cfg : Config) (vs : List Char) (found flipped : Nat) : Config :=
  { cfg with
    current_tag_is_leaf :=
      if vs ≠ [] ∧ ¬ pyIsSpace vs then true else cfg.current_tag_is_leaf
    output := cfg.output ++ [vs]
    buffer := []
    state := .TAG
    value_found_count := cfg.value_found_count + found
    value_flipped_count := cfg.value_flipped_count + flipped }

/-- Value-fragment handling when the next `'<'` arrives (source lines
281–306), parameterised by the target property/category and direction. -/
def handleValueEnd (tp tc : List Char) (mn : Bool) (cfg : Config) : Except Err Config :=
  let value_string := cfg.buffer
  if cfg.current_tag = tp then
    match cfg.category_stack.getLast? with
    | none => .error .indexError  -- category_stack[-1] on an empty list
    | some top =>
      if top = tc then
        match flip_value value_string mn with
        | .error _ =>
            .error (.valueError (pyStrip value_string) cfg.line_number
              (cfg.category_stack.map stripAngle ++ [stripAngle tp]))
        | .ok (vs, value_flipped) =>
            .ok (finishValue cfg vs 1 (if value_flipped then 1 else 0))
      else
        .ok (finishValue cfg value_string 0 0)
  else
    .ok (finishValue cfg value_string 0 0)

/-- The state-dispatch part of one iteration of the scanning loop (source
lines 238–308). -/
def stepCore (tp tc : List Char) (mn : Bool) (cfg : Config) (char : Char) : Except Err Config :=
  match cfg.state with
  | .TAG =>
    let cfg := { cfg with buffer := cfg.buffer ++ [char] }
    if char ≠ '>' then .ok cfg
    else
      let tagRaw := cfg.buffer
      let cfg := { cfg with buffer := [], output := cfg.output ++ [tagRaw] }
      let tag := pyStrip tagRaw
      if tag.take 2 = ['<', '/'] then handleClosingTag tag cfg
      else .ok (handleOpeningTag tag cfg)
  | .VALUE =>
    if char = '<' then
      match handleValueEnd tp tc mn cfg with
      | .error e => .error e
      | .ok cfg' => .ok { cfg' with buffer := cfg'.buffer ++ [char] }
    else
      .ok { cfg with buffer := cfg.buffer ++ [char] }

/-- One iteration of the scanning loop (source lines 231–308): count the
newline first (source lines 235–236), then dispatch on the parser state. -/
def step (tp tc : List Char) (mn : Bool) (cfg : Config) (char : Char) : Except Err Config :=
  stepCore tp tc mn
    (if char = '\n' then { cfg with line_number := cfg.line_number + 1 } else cfg) char

/-- Run the scanning loop from a given state over the remaining characters. -/
def runFrom (tp tc : List Char) (mn : Bool) (cfg : Config) : List Char → Except Err Config
  | [] => .ok cfg
  | c :: cs =>
    match step tp tc mn cfg c with
    | .error e => .error e
    | .ok cfg' => runFrom tp tc mn cfg' cs

/-- `update_qfx_contents` with the target tags as parameters (the source holds
them in the module constants `TARGET_PROPERTY` / `TARGET_CATEGORY`; the spec
treats them as configurable constants).  Returns the updated contents, the
value-found flag and the value-corrected flag, or the error that escapes. -/
def update_qfx_contents_with (tp tc : List Char) (file_contents : List Char)
    (make_negative : Bool) : Except Err (List Char × Bool × Bool) :=
  match runFrom tp tc make_negative initConfig file_contents with
  | .error e => .error e
  | .ok cfg =>
    let output := cfg.output ++ [cfg.buffer]
    let updated_contents :=
      if cfg.value_flipped_count = 0 then file_contents else output.flatten
    .ok (updated_contents,
         decide (1 ≤ cfg.value_found_count),
         decide (1 ≤ cfg.value_flipped_count))

/-- `update_qfx_contents` (source lines 199–314) with the source's fixed
target tags. -/
def update_qfx_contents (file_contents : List Char) (make_negative : Bool := true) :
    Except Err (List Char × Bool × Bool) :=
  update_qfx_contents_with TARGET_PROPERTY TARGET_CATEGORY file_contents make_negative

/-- A QFX-style document with one target value fragment `v`:
`<LEDGERBAL><BALAMT>` ++ `v` ++ `</BALAMT></LEDGERBAL>`. -/
def targetDoc (v : List Char) : List Char :=
  "<LEDGERBAL><BALAMT>".data ++ v ++ "</BALAMT></LEDGERBAL>".data

/-- The parser state after scanning the prefix `<LEDGERBAL><BALAMT>`. -/
def preCfg : Config :=
  { state := .VALUE
    current_tag := "<BALAMT>".data
    current_tag_is_leaf := false
    category_stack := [[], "<LEDGERBAL>".data]
    output := [[], "<LEDGERBAL>".data, [], "<BALAMT>".data]
    buffer := []
    value_found_count := 0
    value_flipped_count := 0
    line_number := 1 }

/-- A canonical document with two occurrences of the target property at the
target category path: `<LEDGERBAL><BALAMT>v1<BALAMT>v2</LEDGERBAL>`. -/
def doc2 (v1 v2 : List Char) : List Char :=
  "<LEDGERBAL><BALAMT>".data ++ v1 ++ "<BALAMT>".data ++ v2 ++ "</LEDGERBAL>".data

/-- Little-endian value of a digit list, inverse of `digitsAux`. -/
def ofDigitsLE : List Nat → Nat
  | [] => 0
  | d :: ds => d + 10 * ofDigitsLE ds

/-- The fractional digit characters of `renderBody N s`. -/
def fracChars (N s : Nat) : List Char :=
  if s = 0 then ['0'] else stripTrailZeros (padZeros s (charsOfNat (N % 10 ^ s)))

/-- The part of the final text that a mid-scan state has already committed
to: every emitted piece, plus the pending tag buffer (tag text is emitted
verbatim), but not a pending value buffer (a value fragment may still be
replaced when its closing `'<'` arrives). -/
def safeText (cfg : Config) : List Char :=
  cfg.output.flatten ++ (match cfg.state with | .TAG => cfg.buffer | .VALUE => [])

/-- Simulation relation between a first-pass state `cfg1` and the state
`cfg2` of a second pass that has consumed exactly `safeText cfg1`: the two
scans agree on everything that steers control flow (parser state, active
tag, leaf flag, category stack), the second pass has flipped nothing, its
buffer matches in `TAG` state and is empty in `VALUE` state (it lags by the
pending fragment), and a pending first-pass fragment is `'<'`-free. -/
def Rel (cfg1 cfg2 : Config) : Prop :=
  cfg2.state = cfg1.state ∧
  cfg2.current_tag = cfg1.current_tag ∧
  cfg2.current_tag_is_leaf = cfg1.current_tag_is_leaf ∧
  cfg2.category_stack = cfg1.category_stack ∧
  cfg2.value_flipped_count = 0 ∧
  (cfg1.state = .TAG → cfg2.buffer = cfg1.buffer) ∧
  (cfg1.state = .VALUE → cfg2.buffer = [] ∧ '<' ∉ cfg1.buffer)

/-! ## General lemmas about the scanning loop -/

/-- `finishValue` adds `found`/`flipped` to the counters. -/
lemma finishValue_value_found_count (cfg : Config) (vs : List Char) (fd fl : Nat) :
    (finishValue cfg vs fd fl).value_found_count = cfg.value_found_count + fd := rfl

/-- `finishValue` adds `found`/`flipped` to the counters. -/
lemma finishValue_value_flipped_count (cfg : Config) (vs : List Char) (fd fl : Nat) :
    (finishValue cfg vs fd fl).value_flipped_count = cfg.value_flipped_count + fl := rfl

/-- Any successful closing-tag handling changes only the active tag and the
category stack. -/
lemma handleClosingTag_ok (tag : List Char) (cfg cfg' : Config)
    (h : handleClosingTag tag cfg = .ok cfg') :
    cfg'.state = cfg.state ∧ cfg'.current_tag_is_leaf = cfg.current_tag_is_leaf ∧
    cfg'.output = cfg.output ∧ cfg'.buffer = cfg.buffer ∧
    cfg'.value_found_count = cfg.value_found_count ∧
    cfg'.value_flipped_count = cfg.value_flipped_count ∧
    cfg'.line_number = cfg.line_number := by
  simp only [handleClosingTag] at h
  split at h
  · rcases hgl : cfg.category_stack.getLast? with _ | t <;> rw [hgl] at h
    · exact absurd h (by simp)
    · simp only [Except.ok.injEq] at h
      subst h
      exact ⟨rfl, rfl, rfl, rfl, rfl, rfl, rfl⟩
  · split at h
    · split at h <;>
        (simp only [Except.ok.injEq] at h; subst h;
         exact ⟨rfl, rfl, rfl, rfl, rfl, rfl, rfl⟩)
    · rcases hgl : cfg.category_stack.getLast? with _ | t <;> rw [hgl] at h <;>
        exact absurd h (by simp)

/-- A successful value-fragment handling bumps the counters by at most one
found event each, the flipped bump never exceeding the found bump. -/
lemma handleValueEnd_counts (tp tc : List Char) (mn : Bool) (cfg cfg' : Config)
    (h : handleValueEnd tp tc mn cfg = .ok cfg') :
    ∃ fd fl, fl ≤ fd ∧
      cfg'.value_found_count = cfg.value_found_count + fd ∧
      cfg'.value_flipped_count = cfg.value_flipped_count + fl := by
  simp only [handleValueEnd] at h
  split at h
  · rcases hgl : cfg.category_stack.getLast? with _ | top <;> rw [hgl] at h
    · exact absurd h (by simp)
    · simp only at h
      split at h
      · rcases hfv : flip_value cfg.buffer mn with e | ⟨vs, fl⟩ <;> rw [hfv] at h
        · exact absurd h (by simp)
        · simp only [Except.ok.injEq] at h
          subst h
          refine ⟨1, if fl then 1 else 0, ?_, rfl, rfl⟩
          cases fl <;> simp
      · simp only [Except.ok.injEq] at h
        subst h
        exact ⟨0, 0, le_refl 0, rfl, rfl⟩
  · simp only [Except.ok.injEq] at h
    subst h
    exact ⟨0, 0, le_refl 0, rfl, rfl⟩

/-- A successful step never lets the flipped counter overtake the found
counter. -/
lemma stepCore_counts_le (tp tc : List Char) (mn : Bool) (cfg : Config) (char : Char)
    (cfg' : Config) (h : stepCore tp tc mn cfg char = .ok cfg')
    (hle : cfg.value_flipped_count ≤ cfg.value_found_count) :
    cfg'.value_flipped_count ≤ cfg'.value_found_count := by
  obtain ⟨st, ct, leaf, stk, out, buf, fd, fl, ln⟩ := cfg
  simp only at hle
  cases st
  · simp only [stepCore] at h
    split at h
    · simp only [Except.ok.injEq] at h
      subst h
      exact hle
    · split at h
      · obtain ⟨-, -, -, -, h5, h6, -⟩ := handleClosingTag_ok _ _ _ h
        simp only [h5, h6]
        exact hle
      · simp only [Except.ok.injEq] at h
        subst h
        simp only [handleOpeningTag]
        exact hle
  · simp only [stepCore] at h
    split at h
    · rcases hve : handleValueEnd tp tc mn
          ⟨ParserState.VALUE, ct, leaf, stk, out, buf, fd, fl, ln⟩ with e | cfg1
      all_goals rw [hve] at h
      · exact absurd h (by simp)
      · simp only [Except.ok.injEq] at h
        subst h
        obtain ⟨a, b, hab, hfd, hfl⟩ := handleValueEnd_counts _ _ _ _ _ hve
        simp only at hfd hfl
        simp only [hfd, hfl]
        omega
    · simp only [Except.ok.injEq] at h
      subst h
      exact hle

/-- The invariant `flipped ≤ found` survives the newline bookkeeping too. -/
lemma step_counts_le (tp tc : List Char) (mn : Bool) (cfg : Config) (char : Char)
    (cfg' : Config) (h : step tp tc mn cfg char = .ok cfg')
    (hle : cfg.value_flipped_count ≤ cfg.value_found_count) :
    cfg'.value_flipped_count ≤ cfg'.value_found_count := by
  unfold step at h
  split at h
  · exact stepCore_counts_le _ _ _ _ _ _ h hle
  · exact stepCore_counts_le _ _ _ _ _ _ h hle

/-- The loop invariant `flipped ≤ found`, carried over a whole run. -/
lemma runFrom_counts_le (tp tc : List Char) (mn : Bool) :
    ∀ (l : List Char) (cfg cfg' : Config), runFrom tp tc mn cfg l = .ok cfg' →
      cfg.value_flipped_count ≤ cfg.value_found_count →
      cfg'.value_flipped_count ≤ cfg'.value_found_count := by
  intro l
  induction l with
  | nil =>
    intro cfg cfg' h hle
    simp only [runFrom, Except.ok.injEq] at h
    subst h
    exact hle
  | cons c cs ih =>
    intro cfg cfg' h hle
    simp only [runFrom] at h
    rcases hs : step tp tc mn cfg c with e | cfg1 <;> rw [hs] at h
    · exact absurd h (by simp)
    · exact ih cfg1 cfg' h (step_counts_le _ _ _ _ _ _ hs hle)

/-- Runs decompose along list append, short-circuiting on errors. -/
lemma runFrom_append (tp tc : List Char) (mn : Bool) :
    ∀ (l1 l2 : List Char) (cfg : Config),
      runFrom tp tc mn cfg (l1 ++ l2) =
        match runFrom tp tc mn cfg l1 with
        | .error e => .error e
        | .ok cfg' => runFrom tp tc mn cfg' l2 := by
  intro l1
  induction l1 with
  | nil => intro l2 cfg; rfl
  | cons c cs ih =>
    intro l2 cfg
    simp only [List.cons_append, runFrom]
    rcases hs : step tp tc mn cfg c with e | cfg1
    · rfl
    · exact ih l2 cfg1

/-- In `VALUE` state, a character other than `'<'` is just buffered (and
counted when it is a newline). -/
lemma step_value_nolt (tp tc : List Char) (mn : Bool) (cfg : Config) (c : Char)
    (hst : cfg.state = .VALUE) (hc : c ≠ '<') :
    step tp tc mn cfg c =
      .ok { cfg with buffer := cfg.buffer ++ [c],
                     line_number := cfg.line_number + (if c = '\n' then 1 else 0) } := by
  obtain ⟨st, ct, leaf, stk, out, buf, fd, fl, ln⟩ := cfg
  simp only at hst
  subst hst
  by_cases hnl : c = '\n' <;> simp [step, stepCore, hnl, hc]

/-- Scanning a `'<'`-free fragment in `VALUE` state accumulates it in the
buffer and counts its newlines, changing nothing else. -/
lemma runFrom_value_nolt (tp tc : List Char) (mn : Bool) :
    ∀ (v : List Char) (cfg : Config), cfg.state = .VALUE → '<' ∉ v →
      runFrom tp tc mn cfg v =
        .ok { cfg with buffer := cfg.buffer ++ v,
                       line_number := cfg.line_number + v.count '\n' } := by
  intro v
  induction v with
  | nil =>
    intro cfg hst _
    simp [runFrom]
  | cons c cs ih =>
    intro cfg hst hmem
    have hc : c ≠ '<' := fun h => hmem (h ▸ List.mem_cons_self c cs)
    simp only [runFrom, step_value_nolt tp tc mn cfg c hst hc]
    have ihx := ih
      { cfg with buffer := cfg.buffer ++ [c],
                 line_number := cfg.line_number + (if c = '\n' then 1 else 0) }
      hst (fun h => hmem (List.mem_cons_of_mem c h))
    rw [ihx]
    by_cases hnl : c = '\n' <;>
      · simp [hnl, List.count_cons]
        try omega

/-! ## The canonical single-target document family -/

/-- Scanning the concrete prefix of `targetDoc` reaches `preCfg` (no target
value fragment ends inside it, so the direction is irrelevant). -/
lemma runFrom_prefix (mn : Bool) :
    runFrom TARGET_PROPERTY TARGET_CATEGORY mn initConfig
      "<LEDGERBAL><BALAMT>".data = .ok preCfg := rfl

/-- A failing step fails the whole run. -/
lemma runFrom_cons_error (tp tc : List Char) (mn : Bool) (cfg : Config) (e : Err)
    (c : Char) (cs : List Char) (h : step tp tc mn cfg c = .error e) :
    runFrom tp tc mn cfg (c :: cs) = .error e := by
  simp only [runFrom, h]

/-- Unfold one successful step of a run. -/
lemma runFrom_cons_ok (tp tc : List Char) (mn : Bool) (cfg cfg' : Config)
    (c : Char) (cs : List Char) (h : step tp tc mn cfg c = .ok cfg') :
    runFrom tp tc mn cfg (c :: cs) = runFrom tp tc mn cfg' cs := by
  simp only [runFrom, h]

/-- In `TAG` state, a character other than `'>'` is just buffered (and
counted when it is a newline). -/
lemma step_tag_nogt (tp tc : List Char) (mn : Bool) (cfg : Config) (c : Char)
    (hst : cfg.state = .TAG) (hc : c ≠ '>') :
    step tp tc mn cfg c =
      .ok { cfg with buffer := cfg.buffer ++ [c],
                     line_number := cfg.line_number + (if c = '\n' then 1 else 0) } := by
  obtain ⟨st, ct, leaf, stk, out, buf, fd, fl, ln⟩ := cfg
  simp only at hst
  subst hst
  by_cases hnl : c = '\n' <;> simp [step, stepCore, hnl, hc]

/-- Scanning a `'>'`-free fragment in `TAG` state accumulates it in the
buffer and counts its newlines, changing nothing else. -/
lemma runFrom_tag_nogt (tp tc : List Char) (mn : Bool) :
    ∀ (v : List Char) (cfg : Config), cfg.state = .TAG → '>' ∉ v →
      runFrom tp tc mn cfg v =
        .ok { cfg with buffer := cfg.buffer ++ v,
                       line_number := cfg.line_number + v.count '\n' } := by
  intro v
  induction v with
  | nil =>
    intro cfg hst _
    simp [runFrom]
  | cons c cs ih =>
    intro cfg hst hmem
    have hc : c ≠ '>' := fun h => hmem (h ▸ List.mem_cons_self c cs)
    simp only [runFrom, step_tag_nogt tp tc mn cfg c hst hc]
    have ihx := ih
      { cfg with buffer := cfg.buffer ++ [c],
                 line_number := cfg.line_number + (if c = '\n' then 1 else 0) }
      hst (fun h => hmem (List.mem_cons_of_mem c h))
    rw [ihx]
    by_cases hnl : c = '\n' <;>
      · simp [hnl, List.count_cons]
        try omega

/-- Scanning the concrete suffix `/BALAMT></LEDGERBAL>` from the state just
after the fragment-ending `'<'` pops both tags and emits them; counters,
output prefix, leaf flag and line number ride along untouched. -/
lemma runFrom_post (mn : Bool) (leaf : Bool) (out : List (List Char)) (fd fl ln : Nat) :
    runFrom TARGET_PROPERTY TARGET_CATEGORY mn
      { state := .TAG
        current_tag := "<BALAMT>".data
        current_tag_is_leaf := leaf
        category_stack := [[], "<LEDGERBAL>".data]
        output := out
        buffer := ['<']
        value_found_count := fd
        value_flipped_count := fl
        line_number := ln }
      "/BALAMT></LEDGERBAL>".data =
    .ok { state := .TAG
          current_tag := []
          current_tag_is_leaf := leaf
          category_stack := []
          output := (out ++ ["</BALAMT>".data]) ++ ["</LEDGERBAL>".data]
          buffer := []
          value_found_count := fd
          value_flipped_count := fl
          line_number := ln } := by
  have e1 : "/BALAMT></LEDGERBAL>".data =
      "/BALAMT".data ++ ('>' :: ("</LEDGERBAL".data ++ ['>'])) := rfl
  rw [e1, runFrom_append]
  have h1 : runFrom TARGET_PROPERTY TARGET_CATEGORY mn
      { state := .TAG
        current_tag := "<BALAMT>".data
        current_tag_is_leaf := leaf
        category_stack := [[], "<LEDGERBAL>".data]
        output := out
        buffer := ['<']
        value_found_count := fd
        value_flipped_count := fl
        line_number := ln }
      "/BALAMT".data =
      .ok { state := .TAG
            current_tag := "<BALAMT>".data
            current_tag_is_leaf := leaf
            category_stack := [[], "<LEDGERBAL>".data]
            output := out
            buffer := "</BALAMT".data
            value_found_count := fd
            value_flipped_count := fl
            line_number := ln } := by
    rw [runFrom_tag_nogt _ _ mn "/BALAMT".data _ rfl (by decide)]
    rfl
  rw [h1]
  dsimp only
  have h2 : step TARGET_PROPERTY TARGET_CATEGORY mn
      { state := .TAG
        current_tag := "<BALAMT>".data
        current_tag_is_leaf := leaf
        category_stack := [[], "<LEDGERBAL>".data]
        output := out
        buffer := "</BALAMT".data
        value_found_count := fd
        value_flipped_count := fl
        line_number := ln }
      '>' =
      .ok { state := .TAG
            current_tag := "<LEDGERBAL>".data
            current_tag_is_leaf := leaf
            category_stack := [[]]
            output := out ++ ["</BALAMT>".data]
            buffer := []
            value_found_count := fd
            value_flipped_count := fl
            line_number := ln } := rfl
  rw [runFrom_cons_ok _ _ _ _ _ _ _ h2, runFrom_append]
  have h3 : runFrom TARGET_PROPERTY TARGET_CATEGORY mn
      { state := .TAG
        current_tag := "<LEDGERBAL>".data
        current_tag_is_leaf := leaf
        category_stack := [[]]
        output := out ++ ["</BALAMT>".data]
        buffer := []
        value_found_count := fd
        value_flipped_count := fl
        line_number := ln }
      "</LEDGERBAL".data =
      .ok { state := .TAG
            current_tag := "<LEDGERBAL>".data
            current_tag_is_leaf := leaf
            category_stack := [[]]
            output := out ++ ["</BALAMT>".data]
            buffer := "</LEDGERBAL".data
            value_found_count := fd
            value_flipped_count := fl
            line_number := ln } := by
    rw [runFrom_tag_nogt _ _ mn "</LEDGERBAL".data _ rfl (by decide)]
    rfl
  rw [h3]
  dsimp only
  have h4 : step TARGET_PROPERTY TARGET_CATEGORY mn
      { state := .TAG
        current_tag := "<LEDGERBAL>".data
        current_tag_is_leaf := leaf
        category_stack := [[]]
        output := out ++ ["</BALAMT>".data]
        buffer := "</LEDGERBAL".data
        value_found_count := fd
        value_flipped_count := fl
        line_number := ln }
      '>' =
      .ok { state := .TAG
            current_tag := []
            current_tag_is_leaf := leaf
            category_stack := []
            output := (out ++ ["</BALAMT>".data]) ++ ["</LEDGERBAL>".data]
            buffer := []
            value_found_count := fd
            value_flipped_count := fl
            line_number := ln } := rfl
  rw [runFrom_cons_ok _ _ _ _ _ _ _ h4]
  rfl

/-- The empty string is not a parseable float. -/
lemma pyFloatOfChars_nil : pyFloatOfChars [] = none := rfl

/-- Stripping an all-whitespace string leaves nothing. -/
lemma pyStrip_eq_nil_of_space (v : List Char) (h : v.all isPySpace) :
    pyStrip v = [] := by
  unfold pyStrip
  have h1 : v.dropWhile isPySpace = [] := by
    rw [List.dropWhile_eq_nil_iff]
    intro x hx
    exact List.all_eq_true.mp h x hx
  simp [h1]

/-- A fragment whose stripped text parses as a float is nonempty and not
pure whitespace (hence marks the active tag as a leaf). -/
lemma parse_implies_leaf (v : List Char) (x : PyFloat)
    (h : pyFloatOfChars (pyStrip v) = some x) : v ≠ [] ∧ ¬ pyIsSpace v := by
  constructor
  · rintro rfl
    exact Option.noConfusion h
  · intro hsp
    have hall : v.all isPySpace := by
      unfold pyIsSpace at hsp
      exact (Bool.and_eq_true _ _ |>.mp hsp).2
    rw [pyStrip_eq_nil_of_space v hall] at h
    exact Option.noConfusion h

/-! ## Digit strings: rendering and parsing -/

lemma digitVal_digitChar (d : Nat) (hd : d < 10) : digitVal (digitChar d) = d := by
  interval_cases d <;> rfl

lemma isDigitChar_digitChar (d : Nat) (hd : d < 10) : isDigitChar (digitChar d) = true := by
  interval_cases d <;> rfl

lemma not_space_of_digit (c : Char) (h : isDigitChar c = true) : isPySpace c = false := by
  by_contra hsp
  rw [Bool.not_eq_false] at hsp
  simp only [isPySpace, Bool.or_eq_true, decide_eq_true_eq] at hsp
  rcases hsp with ((((((((rfl | rfl) | rfl) | rfl) | rfl) | rfl) | rfl) | rfl) | rfl) | rfl <;>
    simp [isDigitChar] at h

lemma digitsAux_lt10 (fuel : Nat) : ∀ (n : Nat), ∀ d ∈ digitsAux fuel n, d < 10 := by
  induction fuel with
  | zero => intro n d hd; simp [digitsAux] at hd
  | succ fuel ih =>
    intro n d hd
    by_cases h0 : n = 0
    · simp [digitsAux, h0] at hd
    · simp only [digitsAux, if_neg h0, List.mem_cons] at hd
      rcases hd with rfl | hd
      · exact Nat.mod_lt _ (by norm_num)
      · exact ih _ d hd

lemma ofDigitsLE_digitsAux (fuel : Nat) :
    ∀ (n : Nat), n ≤ fuel → ofDigitsLE (digitsAux fuel n) = n := by
  induction fuel with
  | zero =>
    intro n hn
    have h0 : n = 0 := Nat.le_zero.mp hn
    subst h0
    rfl
  | succ fuel ih =>
    intro n hn
    by_cases h0 : n = 0
    · simp [digitsAux, h0, ofDigitsLE]
    · have hdiv : n / 10 ≤ fuel := by
        have := Nat.div_lt_self (Nat.pos_of_ne_zero h0) (by norm_num : 1 < 10)
        omega
      simp only [digitsAux, if_neg h0, ofDigitsLE, ih _ hdiv]
      exact Nat.mod_add_div n 10

lemma digitsAux_ne_nil (fuel n : Nat) (h0 : n ≠ 0) (hn : n ≤ fuel) :
    digitsAux fuel n ≠ [] := by
  cases fuel with
  | zero => omega
  | succ fuel => simp [digitsAux, h0]

lemma charsOfNat_all_digit (n : Nat) : ∀ c ∈ charsOfNat n, isDigitChar c = true := by
  intro c hc
  unfold charsOfNat at hc
  by_cases h0 : n = 0
  · simp [h0] at hc
    subst hc
    rfl
  · simp only [if_neg h0, List.mem_reverse, List.mem_map] at hc
    obtain ⟨d, hd, rfl⟩ := hc
    exact isDigitChar_digitChar d (digitsAux_lt10 n n d hd)

lemma charsOfNat_ne_nil (n : Nat) : charsOfNat n ≠ [] := by
  unfold charsOfNat
  by_cases h0 : n = 0
  · simp [h0]
  · simp only [if_neg h0]
    intro h
    rw [List.reverse_eq_nil_iff, List.map_eq_nil_iff] at h
    exact digitsAux_ne_nil n n h0 le_rfl h

lemma digitListVal_nil (acc : Nat) : digitListVal acc [] = acc := rfl

lemma digitListVal_cons (acc : Nat) (c : Char) (rest : List Char) :
    digitListVal acc (c :: rest) = digitListVal (acc * 10 + digitVal c) rest := rfl

lemma digitListVal_append (xs : List Char) :
    ∀ (acc : Nat) (ys : List Char),
      digitListVal acc (xs ++ ys) = digitListVal (digitListVal acc xs) ys := by
  induction xs with
  | nil => intro acc ys; rfl
  | cons c cs ih => intro acc ys; exact ih (acc * 10 + digitVal c) ys

lemma digitListVal_reverse_map (le : List Nat) :
    ∀ (acc : Nat), (∀ d ∈ le, d < 10) →
      digitListVal acc ((le.map digitChar).reverse) =
        acc * 10 ^ le.length + ofDigitsLE le := by
  induction le with
  | nil => intro acc _; simp [digitListVal_nil, ofDigitsLE]
  | cons d ds ih =>
    intro acc hlt
    have hd : d < 10 := hlt d (List.mem_cons_self d ds)
    simp only [List.map_cons, List.reverse_cons, digitListVal_append,
      ih acc (fun x hx => hlt x (List.mem_cons_of_mem d hx))]
    simp only [digitListVal_cons, digitListVal_nil, digitVal_digitChar d hd, ofDigitsLE,
      List.length_cons]
    ring

lemma digitListVal_charsOfNat (n : Nat) : digitListVal 0 (charsOfNat n) = n := by
  unfold charsOfNat
  by_cases h0 : n = 0
  · simp [h0, digitListVal_cons, digitListVal_nil, digitVal]
  · simp only [if_neg h0,
      digitListVal_reverse_map (digitsAux n n) 0 (digitsAux_lt10 n n),
      ofDigitsLE_digitsAux n n le_rfl]
    ring

lemma digitsAux_length_le (fuel : Nat) :
    ∀ (n k : Nat), n < 10 ^ k → n ≤ fuel → (digitsAux fuel n).length ≤ k := by
  induction fuel with
  | zero => intro n k _ _; simp [digitsAux]
  | succ fuel ih =>
    intro n k hk hn
    by_cases h0 : n = 0
    · simp [digitsAux, h0]
    · cases k with
      | zero =>
        simp only [pow_zero] at hk
        omega
      | succ k =>
        have hdivlt : n / 10 < 10 ^ k := by
          rw [Nat.div_lt_iff_lt_mul (by norm_num : 0 < 10)]
          calc n < 10 ^ (k + 1) := hk
            _ = 10 ^ k * 10 := by ring
        have hdivle : n / 10 ≤ fuel := by
          have := Nat.div_lt_self (Nat.pos_of_ne_zero h0) (by norm_num : 1 < 10)
          omega
        simp only [digitsAux, if_neg h0, List.length_cons]
        exact Nat.succ_le_succ (ih _ k hdivlt hdivle)

lemma charsOfNat_length_le (n k : Nat) (h : n < 10 ^ k) (hk : 1 ≤ k) :
    (charsOfNat n).length ≤ k := by
  unfold charsOfNat
  by_cases h0 : n = 0
  · simpa [h0] using hk
  · simp only [if_neg h0, List.length_reverse, List.length_map]
    exact digitsAux_length_le n n k h le_rfl

lemma digitListVal_replicate_zero (t : Nat) :
    ∀ (acc : Nat), digitListVal acc (List.replicate t '0') = acc * 10 ^ t := by
  induction t with
  | zero => intro acc; simp [digitListVal_nil]
  | succ t ih =>
    intro acc
    rw [List.replicate_succ, digitListVal_cons, ih]
    have : digitVal '0' = 0 := rfl
    rw [this]
    ring

lemma padZeros_all_digit (k : Nat) (l : List Char) (h : ∀ c ∈ l, isDigitChar c = true) :
    ∀ c ∈ padZeros k l, isDigitChar c = true := by
  intro c hc
  rw [padZeros, List.mem_append] at hc
  rcases hc with hc | hc
  · rw [List.eq_of_mem_replicate hc]
    rfl
  · exact h c hc

lemma digitListVal_padZeros (k : Nat) (l : List Char) :
    digitListVal 0 (padZeros k l) = digitListVal 0 l := by
  rw [padZeros, digitListVal_append, digitListVal_replicate_zero]
  simp

lemma padZeros_length (k : Nat) (l : List Char) (h : l.length ≤ k) :
    (padZeros k l).length = k := by
  simp [padZeros]
  omega

/-- Decompose a digit string into its zero-stripped core and trailing
zeros. -/
lemma stripTrail_split (l : List Char) :
    ∃ t, l = (l.reverse.dropWhile (fun c => c = '0')).reverse ++ List.replicate t '0' := by
  refine ⟨(l.reverse.takeWhile (fun c => decide (c = '0'))).length, ?_⟩
  conv_lhs =>
    rw [← List.reverse_reverse l,
      ← List.takeWhile_append_dropWhile (fun c => decide (c = '0')) l.reverse]
  rw [List.reverse_append]
  congr 1
  rw [List.eq_replicate_iff]
  refine ⟨by simp, ?_⟩
  intro b hb
  rw [List.mem_reverse] at hb
  have := List.mem_takeWhile_imp hb
  simpa using this

lemma stripTrailZeros_eq (l : List Char) :
    stripTrailZeros l =
      if (l.reverse.dropWhile (fun c => c = '0')).reverse = [] then ['0']
      else (l.reverse.dropWhile (fun c => c = '0')).reverse := rfl

lemma stripTrailZeros_sub (l : List Char) :
    ∀ c ∈ stripTrailZeros l, c ∈ l ∨ c = '0' := by
  intro c hc
  rw [stripTrailZeros_eq] at hc
  split at hc
  · simp at hc
    right; exact hc
  · left
    rw [List.mem_reverse] at hc
    have := (List.dropWhile_sublist (fun c => decide (c = '0'))).mem hc
    simpa using this

lemma stripTrailZeros_ne_nil (l : List Char) : stripTrailZeros l ≠ [] := by
  rw [stripTrailZeros_eq]
  split <;> simp_all

/-- If the head of a list fails the predicate (or the list is empty),
`dropWhile` is the identity. -/
lemma dropWhile_eq_self_of_none (p : Char → Bool) (l : List Char)
    (h : ∀ c ∈ l, p c = false) : l.dropWhile p = l := by
  cases l with
  | nil => rfl
  | cons c cs =>
    rw [List.dropWhile_cons, if_neg]
    rw [h c (List.mem_cons_self c cs)]
    exact Bool.false_ne_true

/-- A string with no whitespace characters strips to itself. -/
lemma pyStrip_eq_self (l : List Char) (h : ∀ c ∈ l, isPySpace c = false) :
    pyStrip l = l := by
  unfold pyStrip
  rw [dropWhile_eq_self_of_none _ _ h,
    dropWhile_eq_self_of_none _ _ (fun c hc => h c (List.mem_reverse.mp hc)),
    List.reverse_reverse]

/-- Two characters differ when exactly one is a digit. -/
lemma digit_ne (c x : Char) (h : isDigitChar c = true) (hx : isDigitChar x = false) :
    c ≠ x := by
  rintro rfl
  rw [h] at hx
  exact Bool.noConfusion hx

lemma parseDigitsGo_nil (acc cnt : Nat) : parseDigitsGo acc cnt [] = (acc, cnt, []) := rfl

lemma parseDigitsGo_cons_digit (acc cnt : Nat) (c : Char) (rest : List Char)
    (h : isDigitChar c = true) :
    parseDigitsGo acc cnt (c :: rest) =
      parseDigitsGo (acc * 10 + digitVal c) (cnt + 1) rest := by
  rw [parseDigitsGo.eq_def]
  simp [h]

lemma parseDigitsGo_stop (acc cnt : Nat) (c : Char) (rest : List Char)
    (h1 : isDigitChar c = false) (h2 : c ≠ '_') :
    parseDigitsGo acc cnt (c :: rest) = (acc, cnt, c :: rest) := by
  rw [parseDigitsGo.eq_def]
  simp [h1, h2]

/-- Scanning a pure digit string followed by a non-digit non-underscore
stopper consumes exactly the digits. -/
lemma parseDigitsGo_full (ds : List Char) :
    ∀ (acc cnt : Nat) (rest : List Char),
      (∀ c ∈ ds, isDigitChar c = true) →
      (rest = [] ∨ ∃ c r', rest = c :: r' ∧ isDigitChar c = false ∧ c ≠ '_') →
      parseDigitsGo acc cnt (ds ++ rest) =
        (digitListVal acc ds, cnt + ds.length, rest) := by
  induction ds with
  | nil =>
    intro acc cnt rest _ hstop
    rcases hstop with rfl | ⟨c, r', rfl, hc, hcu⟩
    · rfl
    · rw [List.nil_append, parseDigitsGo_stop acc cnt c r' hc hcu]
      simp [digitListVal_nil]
  | cons c ct ih =>
    intro acc cnt rest hds hstop
    have hc : isDigitChar c = true := hds c (List.mem_cons_self c ct)
    rw [List.cons_append, parseDigitsGo_cons_digit _ _ _ _ hc,
      ih (acc * 10 + digitVal c) (cnt + 1) rest
        (fun x hx => hds x (List.mem_cons_of_mem c hx)) hstop,
      digitListVal_cons]
    have harith : cnt + 1 + ct.length = cnt + (c :: ct).length := by
      simp only [List.length_cons]
      omega
    rw [harith]

lemma parseUdigits_cons (c : Char) (rest : List Char) :
    parseUdigits (c :: rest) =
      if isDigitChar c then some (parseDigitsGo (digitVal c) 1 rest) else none := rfl

/-- Parsing a nonempty digit string followed by a stopper yields its value,
its length, and the stopper. -/
lemma parseUdigits_full (ds rest : List Char) (hne : ds ≠ [])
    (hds : ∀ c ∈ ds, isDigitChar c = true)
    (hstop : rest = [] ∨ ∃ c r', rest = c :: r' ∧ isDigitChar c = false ∧ c ≠ '_') :
    parseUdigits (ds ++ rest) = some (digitListVal 0 ds, ds.length, rest) := by
  cases ds with
  | nil => exact absurd rfl hne
  | cons c ct =>
    have hc : isDigitChar c = true := hds c (List.mem_cons_self c ct)
    rw [List.cons_append, parseUdigits_cons, if_pos hc,
      parseDigitsGo_full ct (digitVal c) 1 rest
        (fun x hx => hds x (List.mem_cons_of_mem c hx)) hstop]
    rw [digitListVal_cons]
    simp
    omega

/-- Parsing a nonempty digit string with nothing after it. -/
lemma parseUdigits_all (ds : List Char) (hne : ds ≠ [])
    (hds : ∀ c ∈ ds, isDigitChar c = true) :
    parseUdigits ds = some (digitListVal 0 ds, ds.length, []) := by
  have := parseUdigits_full ds [] hne hds (Or.inl rfl)
  rwa [List.append_nil] at this

lemma renderBody_eq (N s : Nat) :
    renderBody N s = charsOfNat (N / 10 ^ s) ++ '.' :: fracChars N s := rfl

lemma fracChars_all_digit (N s : Nat) : ∀ c ∈ fracChars N s, isDigitChar c = true := by
  intro c hc
  unfold fracChars at hc
  split at hc
  · simp at hc
    subst hc
    rfl
  · rcases stripTrailZeros_sub _ c hc with h | h
    · exact padZeros_all_digit _ _ (charsOfNat_all_digit _) c h
    · subst h
      rfl

lemma fracChars_ne_nil (N s : Nat) : fracChars N s ≠ [] := by
  unfold fracChars
  split
  · simp
  · exact stripTrailZeros_ne_nil _

/-- The fractional digits denote `N % 10 ^ s` up to the stripped trailing
zeros, and together with them fill `max 1 s` digit positions. -/
lemma fracChars_spec (N s : Nat) :
    ∃ t, digitListVal 0 (fracChars N s) * 10 ^ t = N % 10 ^ s ∧
      (fracChars N s).length + t = max 1 s := by
  unfold fracChars
  by_cases h0 : s = 0
  · subst h0
    refine ⟨0, ?_, by simp⟩
    simp [Nat.mod_one, digitListVal_cons, digitListVal_nil, digitVal]
  · rw [if_neg h0]
    set fp := N % 10 ^ s with hfp
    have hfplt : fp < 10 ^ s := Nat.mod_lt _ (pow_pos (by norm_num) s)
    have hlen : (padZeros s (charsOfNat fp)).length = s :=
      padZeros_length s _ (charsOfNat_length_le fp s hfplt (by omega))
    have hval : digitListVal 0 (padZeros s (charsOfNat fp)) = fp := by
      rw [digitListVal_padZeros, digitListVal_charsOfNat]
    obtain ⟨t, ht⟩ := stripTrail_split (padZeros s (charsOfNat fp))
    set r0 := ((padZeros s (charsOfNat fp)).reverse.dropWhile (fun c => c = '0')).reverse
      with hr0
    rw [stripTrailZeros_eq, ← hr0]
    by_cases hnil : r0 = []
    · rw [if_pos hnil]
      rw [hnil, List.nil_append] at ht
      refine ⟨s - 1, ?_, by simp; omega⟩
      have : fp = 0 := by
        rw [← hval, ht, ← List.nil_append (List.replicate t '0'), digitListVal_append,
          digitListVal_nil, digitListVal_replicate_zero]
        simp
      rw [this]
      simp [digitListVal_cons, digitListVal_nil, digitVal]
    · rw [if_neg hnil]
      refine ⟨t, ?_, ?_⟩
      · rw [← hval, ht, digitListVal_append, digitListVal_replicate_zero]
      · have : r0.length + t = s := by
          rw [← hlen, ht]
          simp
        omega

lemma parseNumber_cons (c : Char) (rest : List Char) :
    parseNumber (c :: rest) =
      if c = '.' then
        match parseUdigits rest with
        | some (f, cf, r1) =>
          match parseExp r1 with
          | some (e, r2) => some (f, cf, e, r2)
          | none => none
        | none => none
      else parseIntFirst (c :: rest) := rfl

lemma parseExp_nil : parseExp [] = some (0, []) := rfl

/-- Parsing the rendered body of the decimal `N / 10 ^ s` succeeds, consumes
everything, sees no exponent, and denotes the same value. -/
lemma parseNumber_renderBody (N s : Nat) :
    ∃ m c, 1 ≤ c ∧ parseNumber (renderBody N s) = some (m, c, 0, []) ∧
      m * 10 ^ s = N * 10 ^ c ∧ (0 < m ↔ 0 < N) := by
  set ip := N / 10 ^ s with hip
  set fp := N % 10 ^ s with hfp
  have hN : ip * 10 ^ s + fp = N := by
    rw [hip, hfp, Nat.mul_comm]
    exact Nat.div_add_mod N (10 ^ s)
  obtain ⟨t, hfv, hflen⟩ := fracChars_spec N s
  set F := fracChars N s with hF
  set fval := digitListVal 0 F with hfval
  have hFne : F ≠ [] := fracChars_ne_nil N s
  have hFdig : ∀ c ∈ F, isDigitChar c = true := fracChars_all_digit N s
  have hIne : charsOfNat ip ≠ [] := charsOfNat_ne_nil ip
  have hIdig : ∀ c ∈ charsOfNat ip, isDigitChar c = true := charsOfNat_all_digit ip
  have hFlen1 : 1 ≤ F.length := by
    cases hFq : F with
    | nil => exact absurd hFq hFne
    | cons a b => simp [hFq]
  refine ⟨ip * 10 ^ F.length + fval, F.length, hFlen1, ?_, ?_, ?_⟩
  · -- the parse
    rw [renderBody_eq, ← hF]
    have hstop : ('.' :: F = []) ∨
        ∃ c r', '.' :: F = c :: r' ∧ isDigitChar c = false ∧ c ≠ '_' :=
      Or.inr ⟨'.', F, rfl, rfl, by decide⟩
    cases hI : charsOfNat ip with
    | nil => exact absurd hI hIne
    | cons i0 irest =>
      have hi0 : isDigitChar i0 = true := by
        refine hIdig i0 ?_
        rw [hI]
        exact List.mem_cons_self i0 irest
      rw [List.cons_append, parseNumber_cons, if_neg (digit_ne i0 '.' hi0 rfl),
        ← List.cons_append, ← hI]
      unfold parseIntFirst
      rw [parseUdigits_full (charsOfNat ip) ('.' :: F) hIne hIdig hstop]
      dsimp only
      rw [if_pos rfl, parseUdigits_all F hFne hFdig]
      dsimp only
      rw [parseExp_nil]
      dsimp only
      rw [digitListVal_charsOfNat]
  · -- the value
    by_cases h0 : s = 0
    · subst h0
      have hfp0 : N % 10 ^ 0 = 0 := by simp [Nat.mod_one]
      have hip' : ip = N := by
        rw [hip]
        simp
      have hfval0 : fval = 0 := by
        have h10t : (0:Nat) < 10 ^ t := pow_pos (by norm_num) t
        rcases Nat.mul_eq_zero.mp (by rw [hfv]; exact hfp0) with h | h
        · exact h
        · omega
      have hlen1 : F.length = 1 := by
        have hmax : (1:Nat) ⊔ 0 = 1 := rfl
        rw [hmax] at hflen
        omega
      rw [hfval0, hlen1, hip']
      ring
    · have hmax : max 1 s = s := by omega
      rw [hmax] at hflen
      have hNs : N = ip * 10 ^ s + fval * 10 ^ t := by
        rw [← hN, hfp, ← hfv]
      rw [hNs, ← hflen]
      ring
  · -- positivity transfer
    have h10c : (0:Nat) < 10 ^ F.length := pow_pos (by norm_num) _
    have h10t : (0:Nat) < 10 ^ t := pow_pos (by norm_num) _
    have hNs : N = ip * 10 ^ s + fval * 10 ^ t := by
      rw [← hN, hfp, ← hfv]
    have hm0 : ip * 10 ^ F.length + fval = 0 ↔ ip = 0 ∧ fval = 0 := by
      constructor
      · intro h
        have h1 : ip * 10 ^ F.length = 0 := by omega
        have h2 : fval = 0 := by omega
        rcases Nat.mul_eq_zero.mp h1 with h' | h'
        · exact ⟨h', h2⟩
        · omega
      · rintro ⟨h1, h2⟩
        rw [h1, h2]
        simp
    have hN0 : N = 0 ↔ ip = 0 ∧ fval = 0 := by
      rw [hNs]
      constructor
      · intro h
        have h1 : ip * 10 ^ s = 0 := by omega
        have h2 : fval * 10 ^ t = 0 := by omega
        refine ⟨?_, ?_⟩
        · rcases Nat.mul_eq_zero.mp h1 with h' | h'
          · exact h'
          · have : (0:Nat) < 10 ^ s := pow_pos (by norm_num) s
            omega
        · rcases Nat.mul_eq_zero.mp h2 with h' | h'
          · exact h'
          · omega
      · rintro ⟨h1, h2⟩
        rw [h1, h2]
        simp
    rw [Nat.pos_iff_ne_zero, Nat.pos_iff_ne_zero, not_iff_not, hm0, hN0]

lemma asciiLower_digit (c : Char) (h : isDigitChar c = true) : asciiLower c = c := by
  unfold asciiLower
  rw [if_neg]
  rintro ⟨hA, hZ⟩
  simp only [isDigitChar, Bool.and_eq_true, decide_eq_true_eq] at h
  have : ('A' : Char) ≤ '9' := le_trans hA h.2
  exact absurd this (by decide)

/-- A string starting with a digit lower-cases to something whose head is
that digit, so it cannot be a float keyword (`inf`, `infinity`, `nan`). -/
lemma digit_head_not_keyword (i0 : Char) (t : List Char) (h : isDigitChar i0 = true)
    (x : Char) (xs : List Char) (hx : isDigitChar x = false) :
    (i0 :: t).map asciiLower ≠ x :: xs := by
  intro he
  rw [List.map_cons] at he
  injection he with h1 h2
  rw [asciiLower_digit i0 h] at h1
  subst h1
  rw [h] at hx
  exact Bool.noConfusion hx

lemma renderBody_nospace (N s : Nat) : ∀ c ∈ renderBody N s, isPySpace c = false := by
  intro c hc
  rw [renderBody_eq] at hc
  rcases List.mem_append.mp hc with h | h
  · exact not_space_of_digit c (charsOfNat_all_digit _ c h)
  · rcases List.mem_cons.mp h with rfl | h
    · rfl
    · exact not_space_of_digit c (fracChars_all_digit _ _ c h)

lemma renderBody_head_digit (N s : Nat) :
    ∃ i0 irest, renderBody N s = i0 :: irest ∧ isDigitChar i0 = true := by
  rw [renderBody_eq]
  cases hI : charsOfNat (N / 10 ^ s) with
  | nil => exact absurd hI (charsOfNat_ne_nil _)
  | cons i0 ir =>
    refine ⟨i0, ir ++ '.' :: fracChars N s, List.cons_append i0 ir ('.' :: fracChars N s), ?_⟩
    refine charsOfNat_all_digit (N / 10 ^ s) i0 ?_
    rw [hI]
    exact List.mem_cons_self i0 ir

/-- `pyFloatCore` on a rendered decimal body: keyword checks are bypassed and
the number parse goes through. -/
lemma pyFloatCore_renderBody (neg : Bool) (N s : Nat) :
    ∃ (m : Nat) (c : Nat), 1 ≤ c ∧ (0 < m ↔ 0 < N) ∧ m * 10 ^ s = N * 10 ^ c ∧
      pyFloatCore neg (renderBody N s) =
        some (if neg then PyFloat.pyNeg (.finite m c) else .finite m c) := by
  obtain ⟨m, c, hc1, hparse, hval, hpos⟩ := parseNumber_renderBody N s
  refine ⟨m, c, hc1, hpos, hval, ?_⟩
  obtain ⟨i0, irest, hbe, hi0⟩ := renderBody_head_digit N s
  rw [hbe] at hparse
  simp only [pyFloatCore, hbe]
  rw [if_neg, if_neg]
  · rw [hparse]
    dsimp only
    have hc0 : c ≠ 0 := by omega
    simp [hc0]
  · exact digit_head_not_keyword i0 irest hi0 'n' _ rfl
  · rintro (he | he)
    · exact digit_head_not_keyword i0 irest hi0 'i' _ rfl he
    · exact digit_head_not_keyword i0 irest hi0 'i' _ rfl he

lemma pyFloatStr_finite (n : Int) (s : Nat) :
    pyFloatStr (.finite n s) = (if n < 0 then ['-'] else []) ++ renderBody n.natAbs s := rfl

lemma pyFloatStr_nospace (y : PyFloat) : ∀ c ∈ pyFloatStr y, isPySpace c = false := by
  cases y with
  | finite n s =>
    intro c hc
    rw [pyFloatStr_finite] at hc
    rcases List.mem_append.mp hc with h | h
    · split at h
      · rcases List.mem_singleton.mp h with rfl
        rfl
      · simp at h
    · exact renderBody_nospace _ _ c h
  | inf => intro c hc; fin_cases hc <;> rfl
  | ninf => intro c hc; fin_cases hc <;> rfl
  | nan => intro c hc; fin_cases hc <;> rfl

lemma pyFloatOfChars_eq (l : List Char) :
    pyFloatOfChars l =
      match pyStrip l with
      | c :: rest =>
        if c = '+' then pyFloatCore false rest
        else if c = '-' then pyFloatCore true rest
        else pyFloatCore false (c :: rest)
      | [] => pyFloatCore false [] := rfl

/-- Round trip: re-parsing the rendered finite float recovers its value and
sign exactly. -/
lemma pyFloatStr_roundtrip (n : Int) (s : Nat) :
    ∃ (m : Int) (c : Nat),
      pyFloatOfChars (pyFloatStr (.finite n s)) = some (.finite m c) ∧
      (m : ℚ) * (10:ℚ) ^ s = (n : ℚ) * (10:ℚ) ^ c ∧
      (0 < m ↔ 0 < n) ∧ (m < 0 ↔ n < 0) := by
  have hstrip : pyStrip (pyFloatStr (.finite n s)) = pyFloatStr (.finite n s) :=
    pyStrip_eq_self _ (pyFloatStr_nospace _)
  by_cases hneg : n < 0
  · obtain ⟨m, c, hc1, hpos, hval, hcore⟩ := pyFloatCore_renderBody true n.natAbs s
    refine ⟨-(m : Int), c, ?_, ?_, ?_, ?_⟩
    · rw [pyFloatOfChars_eq, hstrip, pyFloatStr_finite, if_pos hneg, List.cons_append,
        List.nil_append]
      dsimp only
      rw [if_neg (by decide), if_pos rfl, hcore]
      rfl
    · have hvalQ : (m : ℚ) * (10:ℚ) ^ s = (n.natAbs : ℚ) * (10:ℚ) ^ c := by
        exact_mod_cast hval
      have hN : ((n.natAbs : ℚ)) = -(n : ℚ) := by
        rw [Int.cast_natAbs, abs_of_neg hneg]
        push_cast
        ring
      push_cast
      rw [hN] at hvalQ
      linarith
    · constructor
      · intro h
        omega
      · intro h
        omega
    · have hm : 0 < m := hpos.mpr (Int.natAbs_pos.mpr (by omega))
      constructor
      · intro _
        exact hneg
      · intro _
        omega
  · obtain ⟨m, c, hc1, hpos, hval, hcore⟩ := pyFloatCore_renderBody false n.natAbs s
    obtain ⟨i0, irest, hbe, hi0⟩ := renderBody_head_digit n.natAbs s
    refine ⟨(m : Int), c, ?_, ?_, ?_, ?_⟩
    · rw [pyFloatOfChars_eq, hstrip, pyFloatStr_finite, if_neg hneg, List.nil_append, hbe]
      dsimp only
      rw [if_neg (digit_ne i0 '+' hi0 rfl), if_neg (digit_ne i0 '-' hi0 rfl), ← hbe, hcore]
      rfl
    · have hvalQ : (m : ℚ) * (10:ℚ) ^ s = (n.natAbs : ℚ) * (10:ℚ) ^ c := by
        exact_mod_cast hval
      have hN : ((n.natAbs : ℚ)) = (n : ℚ) := by
        rw [Int.cast_natAbs, abs_of_nonneg (not_lt.mp hneg)]
      rw [hN] at hvalQ
      exact_mod_cast hvalQ
    · have : 0 < n.natAbs ↔ 0 < n := by omega
      constructor
      · intro h
        exact this.mp (hpos.mp (by exact_mod_cast h))
      · intro h
        exact_mod_cast hpos.mpr (this.mpr h)
    · constructor
      · intro h
        omega
      · intro h
        omega

lemma pyFloatOfChars_inf : pyFloatOfChars (pyFloatStr .inf) = some .inf := rfl

lemma pyFloatOfChars_ninf : pyFloatOfChars (pyFloatStr .ninf) = some .ninf := rfl

lemma pyFloatOfChars_nan : pyFloatOfChars (pyFloatStr .nan) = some .nan := rfl

/-! ## Structure of `strip` and `replace` -/

lemma head_dropWhile (p : Char → Bool) (l : List Char) (c : Char) (rest : List Char)
    (h : l.dropWhile p = c :: rest) : p c = false := by
  induction l with
  | nil => simp [List.dropWhile] at h
  | cons a t ih =>
    rw [List.dropWhile_cons] at h
    by_cases hp : p a = true
    · rw [if_pos hp] at h
      exact ih h
    · rw [if_neg hp] at h
      injection h with h1 _
      subst h1
      simpa using hp

/-- Every string splits as leading whitespace, its stripped core, and
trailing whitespace. -/
lemma pyStrip_decomp (v : List Char) :
    ∃ w1 w2, v = w1 ++ pyStrip v ++ w2 ∧ w1.all isPySpace ∧ w2.all isPySpace ∧
      v.dropWhile isPySpace = pyStrip v ++ w2 := by
  have h4 : v.dropWhile isPySpace =
      pyStrip v ++ ((v.dropWhile isPySpace).reverse.takeWhile isPySpace).reverse := by
    conv_lhs =>
      rw [← List.reverse_reverse (v.dropWhile isPySpace),
        ← List.takeWhile_append_dropWhile isPySpace (v.dropWhile isPySpace).reverse]
    rw [List.reverse_append]
    rfl
  refine ⟨v.takeWhile isPySpace,
    ((v.dropWhile isPySpace).reverse.takeWhile isPySpace).reverse, ?_, ?_, ?_, h4⟩
  · conv_lhs => rw [← List.takeWhile_append_dropWhile isPySpace v, h4]
    rw [List.append_assoc]
  · rw [List.all_eq_true]
    exact fun c hc => List.mem_takeWhile_imp hc
  · rw [List.all_eq_true]
    intro c hc
    rw [List.mem_reverse] at hc
    exact List.mem_takeWhile_imp hc

lemma pyReplaceFuel_zero (s old new : List Char) : pyReplaceFuel 0 s old new = s := rfl

lemma pyReplaceFuel_succ_nil (fuel : Nat) (old new : List Char) :
    pyReplaceFuel (fuel + 1) [] old new = [] := rfl

lemma pyReplaceFuel_succ_cons (fuel : Nat) (c : Char) (rest old new : List Char) :
    pyReplaceFuel (fuel + 1) (c :: rest) old new =
      if old ≠ [] ∧ old.isPrefixOf (c :: rest) then
        new ++ pyReplaceFuel fuel ((c :: rest).drop old.length) old new
      else
        c :: pyReplaceFuel fuel rest old new := rfl

/-- `replace` walks through a whitespace region without matching a pattern
whose head is not whitespace. -/
lemma pyReplaceFuel_space (old new : List Char) (o0 : Char) (oRest : List Char)
    (ho : old = o0 :: oRest) (ho0 : isPySpace o0 = false) :
    ∀ (w : List Char) (rest : List Char) (fuel : Nat), w.all isPySpace →
      (w ++ rest).length ≤ fuel →
      pyReplaceFuel fuel (w ++ rest) old new =
        w ++ pyReplaceFuel (fuel - w.length) rest old new := by
  intro w
  induction w with
  | nil => intro rest fuel _ _; simp
  | cons c wt ih =>
    intro rest fuel hall hlen
    cases fuel with
    | zero => simp at hlen
    | succ fuel =>
      rw [List.all_cons, Bool.and_eq_true] at hall
      rw [List.cons_append, pyReplaceFuel_succ_cons, if_neg]
      · have hlen' : (wt ++ rest).length ≤ fuel := by
          rw [List.cons_append] at hlen
          simpa using hlen
        rw [ih rest fuel hall.2 hlen']
        simp [Nat.succ_sub_succ]
      · rintro ⟨_, hpre⟩
        rw [ho] at hpre
        obtain ⟨t, ht⟩ := List.isPrefixOf_iff_prefix.mp hpre
        rw [List.cons_append] at ht
        injection ht with h1 _
        rw [← h1, ho0] at hall
        exact Bool.noConfusion hall.1

/-- `replace` at the match site: the pattern is consumed, replaced, and the
all-whitespace tail is copied unchanged. -/
lemma pyReplaceFuel_match (old new w2 : List Char) (fuel : Nat)
    (o0 : Char) (oRest : List Char) (ho : old = o0 :: oRest) (ho0 : isPySpace o0 = false)
    (hw2 : w2.all isPySpace) (hlen : (old ++ w2).length ≤ fuel + 1) :
    pyReplaceFuel (fuel + 1) (old ++ w2) old new = new ++ w2 := by
  have hcons : old ++ w2 = o0 :: (oRest ++ w2) := by
    rw [ho, List.cons_append]
  rw [hcons, pyReplaceFuel_succ_cons, if_pos]
  · rw [← hcons, List.drop_left]
    have hw2len : w2.length ≤ fuel := by
      rw [ho] at hlen
      simp at hlen
      omega
    have := pyReplaceFuel_space old new o0 oRest ho ho0 w2 [] fuel
      hw2 (by simpa using hw2len)
    rw [List.append_nil] at this
    rw [this]
    cases h : fuel - w2.length with
    | zero => rw [pyReplaceFuel_zero, List.append_nil]
    | succ k => rw [pyReplaceFuel_succ_nil, List.append_nil]
  · constructor
    · rw [ho]
      exact List.cons_ne_nil o0 oRest
    · rw [← hcons]
      exact List.isPrefixOf_iff_prefix.mpr (List.prefix_append old w2)

/-- `v.replace(v.strip(), new)` replaces exactly the stripped core. -/
lemma pyReplace_structure (v new : List Char) (hne : pyStrip v ≠ []) :
    ∃ w1 w2, v = w1 ++ pyStrip v ++ w2 ∧ w1.all isPySpace ∧ w2.all isPySpace ∧
      pyReplace v (pyStrip v) new = w1 ++ new ++ w2 := by
  obtain ⟨w1, w2, hv, hw1, hw2, hdw⟩ := pyStrip_decomp v
  refine ⟨w1, w2, hv, hw1, hw2, ?_⟩
  obtain ⟨o0, oRest, ho⟩ := List.exists_cons_of_ne_nil hne
  have ho0 : isPySpace o0 = false := by
    refine head_dropWhile isPySpace v o0 (oRest ++ w2) ?_
    rw [hdw, ho, List.cons_append]
  unfold pyReplace
  set P := pyStrip v with hP
  rw [hv, List.append_assoc,
    pyReplaceFuel_space P new o0 oRest ho ho0 w1 (P ++ w2) _ hw1 le_rfl]
  have hrest : (w1 ++ (P ++ w2)).length - w1.length = (P ++ w2).length := by
    simp
  rw [hrest]
  cases hk : (P ++ w2).length with
  | zero =>
    rw [List.length_eq_zero] at hk
    exact absurd (List.append_eq_nil.mp hk).1 hne
  | succ k =>
    rw [pyReplaceFuel_match P new w2 k o0 oRest ho ho0 hw2 (le_of_eq hk),
      List.append_assoc]

lemma dropWhile_append_space (w t : List Char) (hw : w.all isPySpace) :
    (w ++ t).dropWhile isPySpace = t.dropWhile isPySpace := by
  induction w with
  | nil => rfl
  | cons c wt ih =>
    rw [List.all_cons, Bool.and_eq_true] at hw
    rw [List.cons_append, List.dropWhile_cons, if_pos hw.1]
    exact ih hw.2

/-- Stripping a string that is whitespace, then a core with non-whitespace
endpoints, then whitespace, returns exactly the core. -/
lemma pyStrip_sandwich (w1 r w2 : List Char) (hw1 : w1.all isPySpace)
    (hw2 : w2.all isPySpace) (hr : r ≠ [])
    (hns : ∀ c ∈ r, isPySpace c = false) :
    pyStrip (w1 ++ r ++ w2) = r := by
  unfold pyStrip
  rw [List.append_assoc, dropWhile_append_space w1 _ hw1]
  obtain ⟨c, rest, hc⟩ := List.exists_cons_of_ne_nil hr
  have hcs : isPySpace c = false := hns c (by rw [hc]; exact List.mem_cons_self c rest)
  have hstep1 : (r ++ w2).dropWhile isPySpace = r ++ w2 := by
    rw [hc, List.cons_append, List.dropWhile_cons, if_neg, ← List.cons_append, ← hc]
    rw [hcs]
    exact Bool.noConfusion
  rw [hstep1, List.reverse_append]
  have hw2r : w2.reverse.all isPySpace := by
    rw [List.all_eq_true]
    intro x hx
    rw [List.mem_reverse] at hx
    exact List.all_eq_true.mp hw2 x hx
  rw [dropWhile_append_space w2.reverse _ hw2r]
  cases hrr : r.reverse with
  | nil =>
    rw [List.reverse_eq_nil_iff] at hrr
    exact absurd hrr hr
  | cons c2 rest2 =>
    have hc2 : isPySpace c2 = false := by
      refine hns c2 ?_
      rw [← List.mem_reverse, hrr]
      exact List.mem_cons_self c2 rest2
    rw [List.dropWhile_cons, if_neg, ← hrr, List.reverse_reverse]
    rw [hc2]
    exact Bool.noConfusion

/-! ## The flipped fragment -/

lemma renderBody_mem (N s : Nat) : ∀ c ∈ renderBody N s, isDigitChar c = true ∨ c = '.' := by
  intro c hc
  rw [renderBody_eq] at hc
  rcases List.mem_append.mp hc with h | h
  · exact Or.inl (charsOfNat_all_digit _ c h)
  · rcases List.mem_cons.mp h with rfl | h
    · exact Or.inr rfl
    · exact Or.inl (fracChars_all_digit _ _ c h)

lemma pyFloatStr_ne_nil (y : PyFloat) : pyFloatStr y ≠ [] := by
  cases y with
  | finite n s =>
    rw [pyFloatStr_finite]
    intro h
    rcases List.append_eq_nil.mp h with ⟨_, h2⟩
    rw [renderBody_eq] at h2
    rcases List.append_eq_nil.mp h2 with ⟨_, h4⟩
    exact List.cons_ne_nil _ _ h4
  | inf => simp [pyFloatStr]
  | ninf => simp [pyFloatStr]
  | nan => simp [pyFloatStr]

lemma pyFloatStr_no_lt (y : PyFloat) : '<' ∉ pyFloatStr y := by
  cases y with
  | finite n s =>
    intro h
    rw [pyFloatStr_finite] at h
    rcases List.mem_append.mp h with h | h
    · split at h
      · rcases List.mem_singleton.mp h
      · simp at h
    · rcases renderBody_mem _ _ '<' h with hd | hd <;> exact absurd hd (by decide)
  | inf => decide
  | ninf => decide
  | nan => decide

/-- `flip_value` on a parse-and-flip fragment. -/
lemma flip_value_flips (v : List Char) (mn : Bool) (x : PyFloat)
    (hparse : pyFloatOfChars (pyStrip v) = some x)
    (hcond : (x.isPos && mn || x.isNeg && !mn) = true) :
    flip_value v mn =
      .ok (pyReplace v (pyStrip v) (pyFloatStr (if mn then x.pyAbs.pyNeg else x.pyAbs)),
        true) := by
  unfold flip_value
  dsimp only
  rw [hparse]
  dsimp only
  rw [if_pos hcond]

/-- The fragment after a flip: the stripped core is replaced by the rendered
value, the new fragment strips to exactly that rendering, is nonempty, is not
pure whitespace, and introduces no `'<'`. -/
lemma flipped_fragment (v : List Char) (y : PyFloat) (hne : pyStrip v ≠ []) :
    pyStrip (pyReplace v (pyStrip v) (pyFloatStr y)) = pyFloatStr y ∧
      pyReplace v (pyStrip v) (pyFloatStr y) ≠ [] ∧
      ¬ pyIsSpace (pyReplace v (pyStrip v) (pyFloatStr y)) = true ∧
      ('<' ∉ v → '<' ∉ pyReplace v (pyStrip v) (pyFloatStr y)) := by
  obtain ⟨w1, w2, hv, hw1, hw2, hrep⟩ := pyReplace_structure v (pyFloatStr y) hne
  obtain ⟨r0, rRest, hr⟩ := List.exists_cons_of_ne_nil (pyFloatStr_ne_nil y)
  have hr0 : isPySpace r0 = false := by
    refine pyFloatStr_nospace y r0 ?_
    rw [hr]
    exact List.mem_cons_self r0 rRest
  refine ⟨?_, ?_, ?_, ?_⟩
  · rw [hrep]
    exact pyStrip_sandwich w1 _ w2 hw1 hw2 (pyFloatStr_ne_nil y) (pyFloatStr_nospace y)
  · rw [hrep]
    intro h
    rcases List.append_eq_nil.mp h with ⟨h1, _⟩
    exact absurd (List.append_eq_nil.mp h1).2 (pyFloatStr_ne_nil y)
  · rw [hrep]
    intro h
    unfold pyIsSpace at h
    rw [Bool.and_eq_true] at h
    have hmem : r0 ∈ w1 ++ pyFloatStr y ++ w2 := by
      rw [List.append_assoc]
      refine List.mem_append.mpr (Or.inr ?_)
      refine List.mem_append.mpr (Or.inl ?_)
      rw [hr]
      exact List.mem_cons_self r0 rRest
    have := List.all_eq_true.mp h.2 r0 hmem
    rw [hr0] at this
    exact Bool.noConfusion this
  · intro hv' h
    rw [hrep, List.append_assoc] at h
    rcases List.mem_append.mp h with h | h
    · refine hv' ?_
      rw [hv, List.append_assoc]
      exact List.mem_append.mpr (Or.inl h)
    · rcases List.mem_append.mp h with h | h
      · exact pyFloatStr_no_lt y h
      · refine hv' ?_
        rw [hv, List.append_assoc]
        refine List.mem_append.mpr (Or.inr (List.mem_append.mpr (Or.inr h)))

lemma pyStrip_ne_nil_of_parse (v : List Char) (x : PyFloat)
    (hparse : pyFloatOfChars (pyStrip v) = some x) : pyStrip v ≠ [] := by
  intro h
  rw [h] at hparse
  exact Option.noConfusion hparse

/-- A canonical single-target document whose value does not need a sign
change parses to found-but-unchanged and returns the input itself. -/
lemma update_targetDoc_noflip (v : List Char) (mn : Bool) (x : PyFloat) (hlt : '<' ∉ v)
    (hparse : pyFloatOfChars (pyStrip v) = some x)
    (hcond : ((x.isPos && mn) || (x.isNeg && !mn)) = false) :
    update_qfx_contents (targetDoc v) mn = .ok (targetDoc v, true, false) := by
  unfold update_qfx_contents update_qfx_contents_with targetDoc
  rw [List.append_assoc, runFrom_append, runFrom_prefix]
  dsimp only
  rw [runFrom_append, runFrom_value_nolt _ _ mn v preCfg rfl hlt]
  dsimp only
  obtain ⟨hne, hns⟩ := parse_implies_leaf v x hparse
  have hstep : step TARGET_PROPERTY TARGET_CATEGORY mn
      { preCfg with buffer := preCfg.buffer ++ v,
                    line_number := preCfg.line_number + v.count '\n' }
      '<' =
      .ok { state := .TAG
            current_tag := "<BALAMT>".data
            current_tag_is_leaf := true
            category_stack := [[], "<LEDGERBAL>".data]
            output := preCfg.output ++ [v]
            buffer := ['<']
            value_found_count := 1
            value_flipped_count := 0
            line_number := 1 + v.count '\n' } := by
    simp [step, stepCore, preCfg, handleValueEnd, flip_value, hparse, hcond,
      finishValue, hne, hns, TARGET_PROPERTY, TARGET_CATEGORY, Nat.add_comm]
  rw [runFrom_cons_ok _ _ _ _ _ _ _ hstep, runFrom_post]
  simp

/-- A canonical single-target document whose value needs a sign change
parses to found-and-changed, with exactly the trimmed value replaced by the
rendered corrected value. -/
lemma update_targetDoc_flip (v : List Char) (mn : Bool) (x : PyFloat) (hlt : '<' ∉ v)
    (hparse : pyFloatOfChars (pyStrip v) = some x)
    (hcond : ((x.isPos && mn) || (x.isNeg && !mn)) = true) :
    update_qfx_contents (targetDoc v) mn =
      .ok (targetDoc (pyReplace v (pyStrip v)
            (pyFloatStr (if mn then x.pyAbs.pyNeg else x.pyAbs))), true, true) := by
  have hne := pyStrip_ne_nil_of_parse v x hparse
  obtain ⟨hstrip', hne', hnsp', hlt'⟩ :=
    flipped_fragment v (if mn then x.pyAbs.pyNeg else x.pyAbs) hne
  unfold update_qfx_contents update_qfx_contents_with targetDoc
  rw [List.append_assoc, runFrom_append, runFrom_prefix]
  dsimp only
  rw [runFrom_append, runFrom_value_nolt _ _ mn v preCfg rfl hlt]
  dsimp only
  have hstep : step TARGET_PROPERTY TARGET_CATEGORY mn
      { preCfg with buffer := preCfg.buffer ++ v,
                    line_number := preCfg.line_number + v.count '\n' }
      '<' =
      .ok { state := .TAG
            current_tag := "<BALAMT>".data
            current_tag_is_leaf := true
            category_stack := [[], "<LEDGERBAL>".data]
            output := preCfg.output ++
              [pyReplace v (pyStrip v) (pyFloatStr (if mn then x.pyAbs.pyNeg else x.pyAbs))]
            buffer := ['<']
            value_found_count := 1
            value_flipped_count := 1
            line_number := 1 + v.count '\n' } := by
    simp [step, stepCore, preCfg, handleValueEnd,
      flip_value_flips v mn x hparse hcond,
      finishValue, hne', hnsp', TARGET_PROPERTY, TARGET_CATEGORY, Nat.add_comm]
  rw [runFrom_cons_ok _ _ _ _ _ _ _ hstep, runFrom_post]
  simp [preCfg, List.append_assoc]

/-- Scanning a `'<'`-free value fragment from the canonical
`<LEDGERBAL> > <BALAMT>` value state just buffers it. -/
lemma runFrom_value_seg (mn : Bool) (v : List Char) (hlt : '<' ∉ v)
    (out : List (List Char)) (fd fl ln : Nat) :
    runFrom TARGET_PROPERTY TARGET_CATEGORY mn
      { state := .VALUE
        current_tag := "<BALAMT>".data
        current_tag_is_leaf := false
        category_stack := [[], "<LEDGERBAL>".data]
        output := out
        buffer := []
        value_found_count := fd
        value_flipped_count := fl
        line_number := ln }
      v =
      .ok { state := .VALUE
            current_tag := "<BALAMT>".data
            current_tag_is_leaf := false
            category_stack := [[], "<LEDGERBAL>".data]
            output := out
            buffer := v
            value_found_count := fd
            value_flipped_count := fl
            line_number := ln + v.count '\n' } := by
  rw [runFrom_value_nolt _ _ mn v _ rfl hlt]
  rfl

/-- The fragment-ending `'<'` at the matched target path, when the buffered
value needs a sign change: counts a found and a flipped event and emits the
replaced fragment. -/
lemma step_target_flip (mn : Bool) (v : List Char) (x : PyFloat)
    (hparse : pyFloatOfChars (pyStrip v) = some x)
    (hcond : ((x.isPos && mn) || (x.isNeg && !mn)) = true)
    (out : List (List Char)) (fd fl ln : Nat) :
    step TARGET_PROPERTY TARGET_CATEGORY mn
      { state := .VALUE
        current_tag := "<BALAMT>".data
        current_tag_is_leaf := false
        category_stack := [[], "<LEDGERBAL>".data]
        output := out
        buffer := v
        value_found_count := fd
        value_flipped_count := fl
        line_number := ln }
      '<' =
      .ok { state := .TAG
            current_tag := "<BALAMT>".data
            current_tag_is_leaf := true
            category_stack := [[], "<LEDGERBAL>".data]
            output := out ++ [pyReplace v (pyStrip v)
              (pyFloatStr (if mn then x.pyAbs.pyNeg else x.pyAbs))]
            buffer := ['<']
            value_found_count := fd + 1
            value_flipped_count := fl + 1
            line_number := ln } := by
  have hne := pyStrip_ne_nil_of_parse v x hparse
  obtain ⟨-, hne', hnsp', -⟩ :=
    flipped_fragment v (if mn then x.pyAbs.pyNeg else x.pyAbs) hne
  simp [step, stepCore, handleValueEnd, flip_value_flips v mn x hparse hcond,
    finishValue, hne', hnsp', TARGET_PROPERTY, TARGET_CATEGORY]

/-- Scanning the concrete segment `BALAMT>` right after a fragment-ending
`'<'`: the second `<BALAMT>` is emitted, and because the leaf flag is set the
category stack is left untouched (no push). -/
lemma runFrom_mid (mn : Bool) (out : List (List Char)) (fd fl ln : Nat) :
    runFrom TARGET_PROPERTY TARGET_CATEGORY mn
      { state := .TAG
        current_tag := "<BALAMT>".data
        current_tag_is_leaf := true
        category_stack := [[], "<LEDGERBAL>".data]
        output := out
        buffer := ['<']
        value_found_count := fd
        value_flipped_count := fl
        line_number := ln }
      "BALAMT>".data =
    .ok { state := .VALUE
          current_tag := "<BALAMT>".data
          current_tag_is_leaf := false
          category_stack := [[], "<LEDGERBAL>".data]
          output := out ++ ["<BALAMT>".data]
          buffer := []
          value_found_count := fd
          value_flipped_count := fl
          line_number := ln } := by
  have e1 : "BALAMT>".data = "BALAMT".data ++ ['>'] := rfl
  rw [e1, runFrom_append]
  have h1 : runFrom TARGET_PROPERTY TARGET_CATEGORY mn
      { state := .TAG
        current_tag := "<BALAMT>".data
        current_tag_is_leaf := true
        category_stack := [[], "<LEDGERBAL>".data]
        output := out
        buffer := ['<']
        value_found_count := fd
        value_flipped_count := fl
        line_number := ln }
      "BALAMT".data =
      .ok { state := .TAG
            current_tag := "<BALAMT>".data
            current_tag_is_leaf := true
            category_stack := [[], "<LEDGERBAL>".data]
            output := out
            buffer := "<BALAMT".data
            value_found_count := fd
            value_flipped_count := fl
            line_number := ln } := by
    rw [runFrom_tag_nogt _ _ mn "BALAMT".data _ rfl (by decide)]
    rfl
  rw [h1]
  dsimp only
  have h2 : step TARGET_PROPERTY TARGET_CATEGORY mn
      { state := .TAG
        current_tag := "<BALAMT>".data
        current_tag_is_leaf := true
        category_stack := [[], "<LEDGERBAL>".data]
        output := out
        buffer := "<BALAMT".data
        value_found_count := fd
        value_flipped_count := fl
        line_number := ln }
      '>' =
      .ok { state := .VALUE
            current_tag := "<BALAMT>".data
            current_tag_is_leaf := false
            category_stack := [[], "<LEDGERBAL>".data]
            output := out ++ ["<BALAMT>".data]
            buffer := []
            value_found_count := fd
            value_flipped_count := fl
            line_number := ln } := rfl
  rw [runFrom_cons_ok _ _ _ _ _ _ _ h2]
  rfl

/-- Scanning the concrete suffix `/LEDGERBAL>` from the state just after the
second fragment-ending `'<'`: the closing tag matches the stacked
`<LEDGERBAL>` below the top, so the tag and stack are cleared. -/
lemma runFrom_close2 (mn : Bool) (out : List (List Char)) (fd fl ln : Nat) :
    runFrom TARGET_PROPERTY TARGET_CATEGORY mn
      { state := .TAG
        current_tag := "<BALAMT>".data
        current_tag_is_leaf := true
        category_stack := [[], "<LEDGERBAL>".data]
        output := out
        buffer := ['<']
        value_found_count := fd
        value_flipped_count := fl
        line_number := ln }
      "/LEDGERBAL>".data =
    .ok { state := .TAG
          current_tag := []
          current_tag_is_leaf := true
          category_stack := []
          output := out ++ ["</LEDGERBAL>".data]
          buffer := []
          value_found_count := fd
          value_flipped_count := fl
          line_number := ln } := by
  have e1 : "/LEDGERBAL>".data = "/LEDGERBAL".data ++ ['>'] := rfl
  rw [e1, runFrom_append]
  have h1 : runFrom TARGET_PROPERTY TARGET_CATEGORY mn
      { state := .TAG
        current_tag := "<BALAMT>".data
        current_tag_is_leaf := true
        category_stack := [[], "<LEDGERBAL>".data]
        output := out
        buffer := ['<']
        value_found_count := fd
        value_flipped_count := fl
        line_number := ln }
      "/LEDGERBAL".data =
      .ok { state := .TAG
            current_tag := "<BALAMT>".data
            current_tag_is_leaf := true
            category_stack := [[], "<LEDGERBAL>".data]
            output := out
            buffer := "</LEDGERBAL".data
            value_found_count := fd
            value_flipped_count := fl
            line_number := ln } := by
    rw [runFrom_tag_nogt _ _ mn "/LEDGERBAL".data _ rfl (by decide)]
    rfl
  rw [h1]
  dsimp only
  have h2 : step TARGET_PROPERTY TARGET_CATEGORY mn
      { state := .TAG
        current_tag := "<BALAMT>".data
        current_tag_is_leaf := true
        category_stack := [[], "<LEDGERBAL>".data]
        output := out
        buffer := "</LEDGERBAL".data
        value_found_count := fd
        value_flipped_count := fl
        line_number := ln }
      '>' =
      .ok { state := .TAG
            current_tag := []
            current_tag_is_leaf := true
            category_stack := []
            output := out ++ ["</LEDGERBAL>".data]
            buffer := []
            value_found_count := fd
            value_flipped_count := fl
            line_number := ln } := rfl
  rw [runFrom_cons_ok _ _ _ _ _ _ _ h2]
  rfl

lemma pyNeg_toRat (y : PyFloat) : y.pyNeg.toRat = -y.toRat := by
  cases y with
  | finite n s =>
    show ((-n : Int) : ℚ) / (10:ℚ) ^ s = -((n : ℚ) / (10:ℚ) ^ s)
    push_cast
    ring
  | inf => simp [PyFloat.pyNeg, PyFloat.toRat]
  | ninf => simp [PyFloat.pyNeg, PyFloat.toRat]
  | nan => simp [PyFloat.pyNeg, PyFloat.toRat]

lemma pyAbs_toRat (y : PyFloat) : y.pyAbs.toRat = |y.toRat| := by
  cases y with
  | finite n s =>
    show ((n.natAbs : Int) : ℚ) / (10:ℚ) ^ s = |(n : ℚ) / (10:ℚ) ^ s|
    rw [abs_div, abs_of_pos (pow_pos (by norm_num : (0:ℚ) < 10) s)]
    push_cast [Int.cast_natAbs]
    ring
  | inf => simp [PyFloat.pyAbs, PyFloat.toRat]
  | ninf => simp [PyFloat.pyAbs, PyFloat.toRat]
  | nan => simp [PyFloat.pyAbs, PyFloat.toRat]

/-- Cross-multiplication gives equality of the denoted rationals. -/
lemma toRat_eq_of_cross (m n : Int) (c s : Nat)
    (h : (m : ℚ) * (10:ℚ) ^ s = (n : ℚ) * (10:ℚ) ^ c) :
    (PyFloat.finite m c).toRat = (PyFloat.finite n s).toRat := by
  unfold PyFloat.toRat
  rw [div_eq_div_iff (pow_ne_zero c (by norm_num)) (pow_ne_zero s (by norm_num))]
  exact h

/-! ## Second-pass simulation: the output of a pass never flips again -/

/-- A flipped-or-kept fragment stays `'<'`-free. -/
lemma flip_value_no_lt (v w : List Char) (mn f : Bool) (hlt : '<' ∉ v)
    (h : flip_value v mn = .ok (w, f)) : '<' ∉ w := by
  unfold flip_value at h
  dsimp only at h
  split at h
  · exact absurd h (by simp)
  · next x hx =>
    split at h
    · simp only [Except.ok.injEq, Prod.mk.injEq] at h
      rw [← h.1]
      have hne := pyStrip_ne_nil_of_parse v x hx
      exact (flipped_fragment v _ hne).2.2.2 hlt
    · simp only [Except.ok.injEq, Prod.mk.injEq] at h
      rw [← h.1]
      exact hlt

/-- The output fragment of `flip_value` never needs flipping again in the
same direction: a flipped value re-parses with the opposite (now correct)
sign, and an untouched value already had the correct sign. -/
lemma flip_value_no_reflip (v w : List Char) (mn f : Bool)
    (h : flip_value v mn = .ok (w, f)) : flip_value w mn = .ok (w, false) := by
  unfold flip_value at h
  dsimp only at h
  split at h
  · exact absurd h (by simp)
  · next x hx =>
    split at h
    · next hcond =>
      simp only [Except.ok.injEq, Prod.mk.injEq] at h
      obtain ⟨hw, -⟩ := h
      subst hw
      have hne := pyStrip_ne_nil_of_parse v x hx
      obtain ⟨hstrip, -, -, -⟩ :=
        flipped_fragment v (if mn then x.pyAbs.pyNeg else x.pyAbs) hne
      obtain ⟨y, hy, hyc⟩ :
          ∃ y, pyFloatOfChars
              (pyFloatStr (if mn then x.pyAbs.pyNeg else x.pyAbs)) = some y ∧
            (y.isPos && mn || y.isNeg && !mn) = false := by
        cases mn with
        | false =>
          simp only [Bool.and_false, Bool.false_or, Bool.not_false, Bool.and_true] at hcond
          cases x with
          | finite n s =>
            have hn : n < 0 := by
              simpa [PyFloat.isNeg, decide_eq_true_eq] using hcond
            obtain ⟨m, c, hpr, -, hpos, -⟩ := pyFloatStr_roundtrip ((n.natAbs : Int)) s
            refine ⟨.finite m c, hpr, ?_⟩
            have hm : 0 < m := hpos.mpr (by omega)
            simp only [PyFloat.isPos, PyFloat.isNeg, Bool.and_false, Bool.false_or,
              Bool.not_false, Bool.and_true, decide_eq_false_iff_not]
            omega
          | inf => exact absurd hcond (by simp [PyFloat.isNeg])
          | ninf => exact ⟨.inf, pyFloatOfChars_inf, rfl⟩
          | nan => exact absurd hcond (by simp [PyFloat.isNeg])
        | true =>
          simp only [Bool.and_true, Bool.not_true, Bool.and_false, Bool.or_false] at hcond
          cases x with
          | finite n s =>
            have hn : 0 < n := by
              simpa [PyFloat.isPos, decide_eq_true_eq] using hcond
            obtain ⟨m, c, hpr, -, -, hneg⟩ := pyFloatStr_roundtrip (-(n.natAbs : Int)) s
            refine ⟨.finite m c, hpr, ?_⟩
            have hm : m < 0 := hneg.mpr (by omega)
            simp only [PyFloat.isPos, PyFloat.isNeg, Bool.and_true, Bool.not_true,
              Bool.and_false, Bool.or_false, decide_eq_false_iff_not]
            omega
          | inf => exact ⟨.ninf, pyFloatOfChars_ninf, rfl⟩
          | ninf => exact absurd hcond (by simp [PyFloat.isPos])
          | nan => exact absurd hcond (by simp [PyFloat.isPos])
      unfold flip_value
      dsimp only
      rw [hstrip, hy]
      dsimp only
      rw [if_neg (by rw [hyc]; exact Bool.false_ne_true)]
    · next hcond =>
      simp only [Except.ok.injEq, Prod.mk.injEq] at h
      obtain ⟨hw, -⟩ := h
      subst hw
      unfold flip_value
      dsimp only
      rw [hx]
      dsimp only
      rw [if_neg hcond]

/-- A successful value-fragment handling emits some piece via `finishValue`;
a second scan arriving with the same control state and that very piece
buffered emits it again unchanged, with the same found bump and never a
flip. -/
lemma handleValueEnd_replay (tp tc : List Char) (mn : Bool) (cfg1 cfgE : Config)
    (h : handleValueEnd tp tc mn cfg1 = .ok cfgE) (hlt : '<' ∉ cfg1.buffer) :
    ∃ vs dfd dfl,
      cfgE = finishValue cfg1 vs dfd dfl ∧ '<' ∉ vs ∧
      ∀ cfg2, cfg2.current_tag = cfg1.current_tag →
        cfg2.category_stack = cfg1.category_stack → cfg2.buffer = vs →
        handleValueEnd tp tc mn cfg2 = .ok (finishValue cfg2 vs dfd 0) := by
  unfold handleValueEnd at h
  dsimp only at h
  by_cases hct : cfg1.current_tag = tp
  · rw [if_pos hct] at h
    rcases hgl : cfg1.category_stack.getLast? with _ | top <;> rw [hgl] at h
    · exact absurd h (by simp)
    · simp only at h
      by_cases htop : top = tc
      · rw [if_pos htop] at h
        rcases hfv : flip_value cfg1.buffer mn with e | p <;> rw [hfv] at h
        · exact absurd h (by simp)
        · obtain ⟨vs, fl⟩ := p
          simp only [Except.ok.injEq] at h
          refine ⟨vs, 1, if fl then 1 else 0, h.symm,
            flip_value_no_lt cfg1.buffer vs mn fl hlt hfv, ?_⟩
          intro cfg2 h2ct h2stk h2buf
          unfold handleValueEnd
          dsimp only
          rw [h2buf, h2ct, if_pos hct, h2stk, hgl]
          simp only
          rw [if_pos htop, flip_value_no_reflip cfg1.buffer vs mn fl hfv]
          rfl
      · rw [if_neg htop] at h
        simp only [Except.ok.injEq] at h
        refine ⟨cfg1.buffer, 0, 0, h.symm, hlt, ?_⟩
        intro cfg2 h2ct h2stk h2buf
        unfold handleValueEnd
        dsimp only
        rw [h2buf, h2ct, if_pos hct, h2stk, hgl]
        simp only
        rw [if_neg htop]
  · rw [if_neg hct] at h
    simp only [Except.ok.injEq] at h
    refine ⟨cfg1.buffer, 0, 0, h.symm, hlt, ?_⟩
    intro cfg2 h2ct h2stk h2buf
    unfold handleValueEnd
    dsimp only
    rw [h2buf, h2ct, if_neg hct]

/-- Closing-tag handling is driven only by the active tag and the stack: a
second configuration agreeing on those succeeds with the same new tag and
stack, its other fields untouched; and the handler touches nothing else. -/
lemma handleClosingTag_sim (tag : List Char) (A B A' : Config)
    (h : handleClosingTag tag A = .ok A')
    (hct : B.current_tag = A.current_tag) (hstk : B.category_stack = A.category_stack) :
    handleClosingTag tag B =
      .ok { B with current_tag := A'.current_tag, category_stack := A'.category_stack } ∧
    A' = { A with current_tag := A'.current_tag, category_stack := A'.category_stack } := by
  unfold handleClosingTag at h ⊢
  dsimp only at h ⊢
  rw [hct, hstk]
  by_cases h1 : pyUpper ('<' :: tag.drop 2) = A.current_tag
  · rw [if_pos h1] at h ⊢
    rcases hgl : A.category_stack.getLast? with _ | tl <;> rw [hgl] at h
    · exact absurd h (by simp)
    · simp only [Except.ok.injEq] at h
      subst h
      exact ⟨rfl, rfl⟩
  · rw [if_neg h1] at h ⊢
    by_cases h2 : pyUpper ('<' :: tag.drop 2) ∈ A.category_stack
    · rw [if_pos h2] at h ⊢
      split at h
      · next h3 =>
        rw [if_pos h3]
        simp only [Except.ok.injEq] at h
        subst h
        exact ⟨rfl, rfl⟩
      · next h3 =>
        rw [if_neg h3]
        simp only [Except.ok.injEq] at h
        subst h
        exact ⟨rfl, rfl⟩
    · rw [if_neg h2] at h
      rcases hgl : A.category_stack.getLast? with _ | tl <;> rw [hgl] at h <;>
        exact absurd h (by simp)

/-- One-step forward simulation for `stepCore`: a successful first-pass step
extends the committed text by some segment `E`, and a second pass in
relation `Rel` consumes exactly `E`, succeeds, and re-establishes `Rel`. -/
lemma stepCore_sim (tp tc : List Char) (mn : Bool) (cfg1 cfg2 cfg1' : Config) (c : Char)
    (hstep : stepCore tp tc mn cfg1 c = .ok cfg1') (hrel : Rel cfg1 cfg2) :
    ∃ E cfg2', safeText cfg1 ++ E = safeText cfg1' ∧
      runFrom tp tc mn cfg2 E = .ok cfg2' ∧ Rel cfg1' cfg2' := by
  obtain ⟨hst, hct, hlf, hstk, hfl2, hbufT, hbufV⟩ := hrel
  obtain ⟨st0, ct0, lf0, stk0, out1, buf1, fd1, fl1, ln1⟩ := cfg1
  obtain ⟨st1, ct1, lf1, stk1, out2, buf2, fl2d, fl2, ln2⟩ := cfg2
  simp only at hst hct hlf hstk hfl2 hbufT hbufV
  subst hst hct hlf hstk hfl2
  cases st1 with
  | TAG =>
    have hbuf : buf1 = buf2 := (hbufT rfl).symm
    subst hbuf
    simp only [stepCore] at hstep
    by_cases hcg : c = '>'
    · subst hcg
      rw [if_neg (not_not_intro rfl)] at hstep
      have hrep0 : step tp tc mn ⟨.TAG, ct1, lf1, stk1, out2, buf1, fl2d, 0, ln2⟩ '>' =
          (if (pyStrip (buf1 ++ ['>'])).take 2 = ['<', '/'] then
            handleClosingTag (pyStrip (buf1 ++ ['>']))
              ⟨.TAG, ct1, lf1, stk1, out2 ++ [buf1 ++ ['>']], [], fl2d, 0, ln2⟩
          else
            .ok (handleOpeningTag (pyStrip (buf1 ++ ['>']))
              ⟨.TAG, ct1, lf1, stk1, out2 ++ [buf1 ++ ['>']], [], fl2d, 0, ln2⟩)) := by
        unfold step
        rw [if_neg (by decide : ¬ ('>' = '\n'))]
        simp only [stepCore]
        rw [if_neg (not_not_intro rfl)]
      by_cases hcl : (pyStrip (buf1 ++ ['>'])).take 2 = ['<', '/']
      · rw [if_pos hcl] at hstep
        obtain ⟨hB, hA⟩ := handleClosingTag_sim (pyStrip (buf1 ++ ['>']))
          ⟨.TAG, ct1, lf1, stk1, out1 ++ [buf1 ++ ['>']], [], fd1, fl1, ln1⟩
          ⟨.TAG, ct1, lf1, stk1, out2 ++ [buf1 ++ ['>']], [], fl2d, 0, ln2⟩
          cfg1' hstep rfl rfl
        refine ⟨['>'],
          { (⟨.TAG, ct1, lf1, stk1, out2 ++ [buf1 ++ ['>']], [], fl2d, 0, ln2⟩ : Config) with
            current_tag := cfg1'.current_tag, category_stack := cfg1'.category_stack },
          ?_, ?_, ?_⟩
        · rw [hA]
          simp [safeText, List.flatten_append, List.append_assoc]
        · have hstep2 : step tp tc mn ⟨.TAG, ct1, lf1, stk1, out2, buf1, fl2d, 0, ln2⟩ '>' =
              .ok { (⟨.TAG, ct1, lf1, stk1, out2 ++ [buf1 ++ ['>']], [], fl2d, 0,
                      ln2⟩ : Config) with
                    current_tag := cfg1'.current_tag,
                    category_stack := cfg1'.category_stack } := by
            rw [hrep0, if_pos hcl, hB]
          rw [runFrom_cons_ok _ _ _ _ _ _ _ hstep2]
          rfl
        · rw [hA]
          exact ⟨rfl, rfl, rfl, rfl, rfl, fun _ => rfl, fun _ => ⟨rfl, by simp⟩⟩
      · rw [if_neg hcl] at hstep
        simp only [Except.ok.injEq] at hstep
        subst hstep
        refine ⟨['>'], handleOpeningTag (pyStrip (buf1 ++ ['>']))
            ⟨.TAG, ct1, lf1, stk1, out2 ++ [buf1 ++ ['>']], [], fl2d, 0, ln2⟩, ?_, ?_, ?_⟩
        · simp [safeText, handleOpeningTag, List.flatten_append, List.append_assoc]
        · have hstep2 : step tp tc mn ⟨.TAG, ct1, lf1, stk1, out2, buf1, fl2d, 0, ln2⟩ '>' =
              .ok (handleOpeningTag (pyStrip (buf1 ++ ['>']))
                ⟨.TAG, ct1, lf1, stk1, out2 ++ [buf1 ++ ['>']], [], fl2d, 0, ln2⟩) := by
            rw [hrep0, if_neg hcl]
          rw [runFrom_cons_ok _ _ _ _ _ _ _ hstep2]
          rfl
        · exact ⟨rfl, rfl, rfl, rfl, rfl, fun _ => rfl,
            fun _ => ⟨rfl, by simp [handleOpeningTag]⟩⟩
    · rw [if_pos hcg] at hstep
      simp only [Except.ok.injEq] at hstep
      subst hstep
      refine ⟨[c], ⟨.TAG, ct1, lf1, stk1, out2, buf1 ++ [c], fl2d, 0,
        ln2 + (if c = '\n' then 1 else 0)⟩, ?_, ?_, ?_⟩
      · simp [safeText, List.append_assoc]
      · rw [runFrom_cons_ok _ _ _ _ _ _ _
          (step_tag_nogt tp tc mn ⟨.TAG, ct1, lf1, stk1, out2, buf1, fl2d, 0, ln2⟩ c rfl hcg)]
        rfl
      · exact ⟨rfl, rfl, rfl, rfl, rfl, fun _ => rfl, fun hx => by simp at hx⟩
  | VALUE =>
    obtain ⟨hbuf, hlt1⟩ := hbufV rfl
    subst hbuf
    simp only [stepCore] at hstep
    by_cases hc : c = '<'
    · subst hc
      rw [if_pos rfl] at hstep
      rcases hve : handleValueEnd tp tc mn ⟨.VALUE, ct1, lf1, stk1, out1, buf1, fd1, fl1, ln1⟩
        with e | cfgE <;> rw [hve] at hstep
      · exact absurd hstep (by simp)
      · simp only [Except.ok.injEq] at hstep
        subst hstep
        obtain ⟨vs, dfd, dfl, hE, hvslt, hreplay⟩ :=
          handleValueEnd_replay tp tc mn _ cfgE hve hlt1
        subst hE
        have hv2 : runFrom tp tc mn ⟨.VALUE, ct1, lf1, stk1, out2, [], fl2d, 0, ln2⟩ vs =
            .ok { (⟨.VALUE, ct1, lf1, stk1, out2, [], fl2d, 0, ln2⟩ : Config) with
                  buffer := [] ++ vs, line_number := ln2 + vs.count '\n' } :=
          runFrom_value_nolt tp tc mn vs _ rfl hvslt
        have hstep2 : step tp tc mn
            { (⟨.VALUE, ct1, lf1, stk1, out2, [], fl2d, 0, ln2⟩ : Config) with
              buffer := [] ++ vs, line_number := ln2 + vs.count '\n' } '<' =
            .ok { finishValue
                { (⟨.VALUE, ct1, lf1, stk1, out2, [], fl2d, 0, ln2⟩ : Config) with
                  buffer := [] ++ vs, line_number := ln2 + vs.count '\n' } vs dfd 0 with
                buffer := [] ++ ['<'] } := by
          unfold step
          rw [if_neg (by decide : ¬ ('<' = '\n'))]
          simp only [stepCore]
          rw [hreplay { (⟨.VALUE, ct1, lf1, stk1, out2, [], fl2d, 0, ln2⟩ : Config) with
                buffer := [] ++ vs, line_number := ln2 + vs.count '\n' }
              rfl rfl (List.nil_append vs)]
          rfl
        refine ⟨vs ++ ['<'],
          { finishValue
              { (⟨.VALUE, ct1, lf1, stk1, out2, [], fl2d, 0, ln2⟩ : Config) with
                buffer := [] ++ vs, line_number := ln2 + vs.count '\n' } vs dfd 0 with
            buffer := [] ++ ['<'] }, ?_, ?_, ?_⟩
        · simp [safeText, finishValue, List.flatten_append, List.append_assoc]
        · rw [runFrom_append, hv2]
          dsimp only
          rw [runFrom_cons_ok _ _ _ _ _ _ _ hstep2]
          rfl
        · exact ⟨rfl, rfl, rfl, rfl, rfl, fun _ => rfl,
            fun hx => by simp [finishValue] at hx⟩
    · rw [if_neg hc] at hstep
      simp only [Except.ok.injEq] at hstep
      subst hstep
      refine ⟨[], ⟨.VALUE, ct1, lf1, stk1, out2, [], fl2d, 0, ln2⟩, ?_, rfl, ?_⟩
      · simp [safeText]
      · refine ⟨rfl, rfl, rfl, rfl, rfl, fun hx => by simp at hx, fun _ => ⟨rfl, ?_⟩⟩
        intro hmem
        rcases List.mem_append.mp hmem with hm | hm
        · exact hlt1 hm
        · exact hc (List.mem_singleton.mp hm).symm

/-- One-step forward simulation for `step` (the newline bookkeeping changes
nothing the relation tracks). -/
lemma step_sim (tp tc : List Char) (mn : Bool) (cfg1 cfg2 cfg1' : Config) (c : Char)
    (hstep : step tp tc mn cfg1 c = .ok cfg1') (hrel : Rel cfg1 cfg2) :
    ∃ E cfg2', safeText cfg1 ++ E = safeText cfg1' ∧
      runFrom tp tc mn cfg2 E = .ok cfg2' ∧ Rel cfg1' cfg2' := by
  unfold step at hstep
  by_cases hc : c = '\n'
  · rw [if_pos hc] at hstep
    exact stepCore_sim tp tc mn
      { cfg1 with line_number := cfg1.line_number + 1 } cfg2 cfg1' c hstep hrel
  · rw [if_neg hc] at hstep
    exact stepCore_sim tp tc mn cfg1 cfg2 cfg1' c hstep hrel

/-- Forward simulation over a whole run: a successful first pass appends a
segment `E` to its committed text, and a related second pass consumes
exactly `E`, succeeds, and stays related. -/
lemma runFrom_sim (tp tc : List Char) (mn : Bool) :
    ∀ (d : List Char) (cfg1 cfg1' cfg2 : Config),
      runFrom tp tc mn cfg1 d = .ok cfg1' → Rel cfg1 cfg2 →
      ∃ E cfg2', safeText cfg1 ++ E = safeText cfg1' ∧
        runFrom tp tc mn cfg2 E = .ok cfg2' ∧ Rel cfg1' cfg2' := by
  intro d
  induction d with
  | nil =>
    intro cfg1 cfg1' cfg2 h hrel
    simp only [runFrom, Except.ok.injEq] at h
    subst h
    exact ⟨[], cfg2, by simp, rfl, hrel⟩
  | cons c cs ih =>
    intro cfg1 cfg1' cfg2 h hrel
    simp only [runFrom] at h
    rcases hs : step tp tc mn cfg1 c with e | mid <;> rw [hs] at h
    · exact absurd h (by simp)
    · obtain ⟨E1, cfg2m, hsafe1, hrun1, hrel1⟩ := step_sim tp tc mn cfg1 cfg2 mid c hs hrel
      obtain ⟨E2, cfg2', hsafe2, hrun2, hrel2⟩ := ih mid cfg1' cfg2m h hrel1
      refine ⟨E1 ++ E2, cfg2', ?_, ?_, hrel2⟩
      · rw [← List.append_assoc, hsafe1, hsafe2]
      · rw [runFrom_append, hrun1]
        exact hrun2

/-- Re-scanning the final text of a successful pass succeeds and flips
nothing. -/
lemma rescan_no_flip (tp tc : List Char) (mn : Bool) (d : List Char) (cfg1 : Config)
    (h : runFrom tp tc mn initConfig d = .ok cfg1) :
    ∃ cfg2, runFrom tp tc mn initConfig (cfg1.output.flatten ++ cfg1.buffer) = .ok cfg2 ∧
      cfg2.value_flipped_count = 0 := by
  have hrel0 : Rel initConfig initConfig :=
    ⟨rfl, rfl, rfl, rfl, rfl, fun _ => rfl, fun _ => ⟨rfl, by simp [initConfig]⟩⟩
  obtain ⟨E, cfg2, hsafe, hrun, hrel⟩ :=
    runFrom_sim tp tc mn d initConfig cfg1 initConfig h hrel0
  obtain ⟨hst, -, -, -, hfl, hbufT, hbufV⟩ := hrel
  have hsafe0 : safeText initConfig = [] := rfl
  rw [hsafe0, List.nil_append] at hsafe
  cases hstate : cfg1.state with
  | TAG =>
    have hE : cfg1.output.flatten ++ cfg1.buffer = E := by
      rw [hsafe]
      simp [safeText, hstate]
    exact ⟨cfg2, hE ▸ hrun, hfl⟩
  | VALUE =>
    obtain ⟨hbuf2, hlt⟩ := hbufV hstate
    have hE : cfg1.output.flatten = E := by
      rw [hsafe]
      simp [safeText, hstate]
    have hv := runFrom_value_nolt tp tc mn cfg1.buffer cfg2 (hst.trans hstate) hlt
    refine ⟨{ cfg2 with
        buffer := cfg2.buffer ++ cfg1.buffer
        line_number := cfg2.line_number + cfg1.buffer.count '\n' }, ?_, hfl⟩
    have hrun' : runFrom tp tc mn initConfig cfg1.output.flatten = .ok cfg2 := by
      rw [hE]
      exact hrun
    rw [runFrom_append, hrun']
    dsimp only
    exact hv

/-! ## Claim theorems: concrete evaluations -/

/-- **C1**: the claim says that in `<A><B>text</B><C>text2</C></A>` the
structural path in effect while scanning `C`'s value is `A > C` (active tag
`C`, stack top `A`), so that with target property `C` and target category `A`
the value `text2` would be matched.  The code disagrees: after `</B>` pops
`A` into `current_tag`, the stale leaf flag (set by `B`'s text) suppresses
re-pushing `A` when `C` opens, so the active tag is `C` but the stack top is
the empty root marker — and the full document even aborts with an
`IndexError` at the trailing `</A>`.  This theorem evaluates the code at the
claim's own input. -/
theorem claim_C1 :
    (runFrom "<C>".data "<A>".data true initConfig
        "<A><B>text</B><C>text2".data).map
        (fun cfg => (cfg.current_tag, cfg.category_stack)) =
      .ok ("<C>".data, [[]]) ∧
    update_qfx_contents_with "<C>".data "<A>".data
        "<A><B>text</B><C>text2</C></A>".data true = .error .indexError := by
  exact ⟨rfl, rfl⟩

/-- **C2**: the claim says the only failures that can escape
`update_qfx_contents` are the structural (`SyntaxError`) and value-format
(`ValueError`) errors — in particular no out-of-range index when the category
stack is empty at a target-property match.  The code disagrees: in this
document `</A>` empties the stack, the stale leaf flag stops `<BALAMT>` from
pushing anything back, and the `category_stack[-1]` in the match test raises
`IndexError`. -/
theorem claim_C2 :
    update_qfx_contents "<A><B>hi</A><BALAMT>5<X>".data true =
      .error .indexError := by
  exact rfl

/-- **C5**: the claim says a closing tag matching nothing open always fails
with a structural error carrying the closing tag text, line number and
open-path trace.  The code disagrees when the category stack is empty: the
f-string for the `SyntaxError` message itself evaluates `category_stack[-1]`,
so the spec's own example `</X>` (nothing open at all) dies with an
`IndexError` instead. -/
theorem claim_C5 :
    update_qfx_contents "</X>".data true = .error .indexError := by
  exact rfl

/-- **C3** (counterexample): the claim says only the first occurrence of the
target value at the target path is processed and the parser then stops, later
occurrences being neither counted as found events nor transformed.  On a
document with two occurrences the code counts two found events and flips
both. -/
theorem claim_C3_counterexample :
    (runFrom TARGET_PROPERTY TARGET_CATEGORY true initConfig
        "<LEDGERBAL><BALAMT>1.0<BALAMT>2.0</LEDGERBAL>".data).map
        (fun cfg => (cfg.value_found_count, cfg.value_flipped_count)) =
      .ok (2, 2) ∧
    update_qfx_contents "<LEDGERBAL><BALAMT>1.0<BALAMT>2.0</LEDGERBAL>".data true =
      .ok ("<LEDGERBAL><BALAMT>-1.0<BALAMT>-2.0</LEDGERBAL>".data, true, true) := by
  exact ⟨rfl, rfl⟩

/-- **C3** (amended): the parser does not stop after the first occurrence of
the target value at the target path: on the two-occurrence document
`<LEDGERBAL><BALAMT>3.5<BALAMT>120.00</LEDGERBAL>` with make-negative, both
occurrences are counted as found events and both are flipped, yielding
`<LEDGERBAL><BALAMT>-3.5<BALAMT>-120.0</LEDGERBAL>` with found=true,
changed=true. -/
theorem claim_C3 :
    (runFrom TARGET_PROPERTY TARGET_CATEGORY true initConfig
        "<LEDGERBAL><BALAMT>3.5<BALAMT>120.00</LEDGERBAL>".data).map
        (fun cfg => (cfg.value_found_count, cfg.value_flipped_count)) = .ok (2, 2) ∧
    update_qfx_contents "<LEDGERBAL><BALAMT>3.5<BALAMT>120.00</LEDGERBAL>".data true =
      .ok ("<LEDGERBAL><BALAMT>-3.5<BALAMT>-120.0</LEDGERBAL>".data, true, true) := by
  exact ⟨rfl, rfl⟩

/-- **C4** (counterexample): the claim says flipping
`<LEDGERBAL><BALAMT>150.00</BALAMT></LEDGERBAL>` to negative yields the span
`<BALAMT>-150.00</BALAMT>`.  The code renders the new value through Python's
`str(float)`, which canonicalises `150.00` to `150.0`, so the output is
`<BALAMT>-150.0</BALAMT>` and the claimed span occurs nowhere in it. -/
theorem claim_C4_counterexample :
    update_qfx_contents "<LEDGERBAL><BALAMT>150.00</BALAMT></LEDGERBAL>".data true =
      .ok ("<LEDGERBAL><BALAMT>-150.0</BALAMT></LEDGERBAL>".data, true, true) ∧
    ¬ "<BALAMT>-150.00</BALAMT>".data <:+:
        "<LEDGERBAL><BALAMT>-150.0</BALAMT></LEDGERBAL>".data := by
  refine ⟨rfl, ?_⟩
  decide

/-- **C4** (amended): same input and directions, with the make-negative
output span corrected to `<BALAMT>-150.0</BALAMT>` (canonical `str(float)`
rendering); flags are found=true, changed=true for make-negative, and the
make-positive run returns the input unchanged with found=true,
changed=false. -/
theorem claim_C4 :
    update_qfx_contents "<LEDGERBAL><BALAMT>150.00</BALAMT></LEDGERBAL>".data true =
      .ok ("<LEDGERBAL><BALAMT>-150.0</BALAMT></LEDGERBAL>".data, true, true) ∧
    "<BALAMT>-150.0</BALAMT>".data <:+:
      "<LEDGERBAL><BALAMT>-150.0</BALAMT></LEDGERBAL>".data ∧
    update_qfx_contents "<LEDGERBAL><BALAMT>150.00</BALAMT></LEDGERBAL>".data false =
      .ok ("<LEDGERBAL><BALAMT>150.00</BALAMT></LEDGERBAL>".data, true, false) := by
  refine ⟨rfl, ?_, rfl⟩
  decide

/-- **C6** (counterexample): the claim says every document whose value
fragment at the matched target path does not parse fails with a value-format
error.  If the document ends before a `'<'` terminates the matched fragment,
the unparseable text is flushed at end of input without any parse attempt
and the function returns normally: here `abc` sits at the matched path
(active tag `<BALAMT>`, stack top `<LEDGERBAL>`), does not parse, yet the
result is a normal return with found=false and the text unchanged. -/
theorem claim_C6_counterexample :
    (runFrom TARGET_PROPERTY TARGET_CATEGORY true initConfig
        "<LEDGERBAL><BALAMT>abc".data).map
        (fun cfg => (cfg.state, cfg.current_tag, cfg.category_stack.getLast?, cfg.buffer)) =
      .ok (.VALUE, TARGET_PROPERTY, some TARGET_CATEGORY, "abc".data) ∧
    pyFloatOfChars (pyStrip "abc".data) = none ∧
    update_qfx_contents "<LEDGERBAL><BALAMT>abc".data true =
      .ok ("<LEDGERBAL><BALAMT>abc".data, false, false) := by
  exact ⟨rfl, rfl, rfl⟩

/-- **C6** (amended): for every document prefix that brings the scan to the
matched target path (active tag = target property, stack top = target
category) with a buffered fragment whose trimmed text does not parse as a
float, and that is followed by a `'<'` terminating the fragment, the whole
call fails — whatever the rest of the document is — with a value-format
error carrying the trimmed text, the current line number, and the full
structural path including the property name; no modified text is returned.
The prefix is restricted to ASCII text: Python's `float()` and `str.strip()`
additionally accept non-ASCII Unicode digits and whitespace, which are
outside this embedding (see the module docstring). -/
theorem claim_C6 (mn : Bool) (pre post : List Char) (cfg : Config)
    (hascii : ∀ ch ∈ pre, ch.toNat < 128)
    (hrun : runFrom TARGET_PROPERTY TARGET_CATEGORY mn initConfig pre = .ok cfg)
    (hst : cfg.state = .VALUE)
    (htag : cfg.current_tag = TARGET_PROPERTY)
    (htop : cfg.category_stack.getLast? = some TARGET_CATEGORY)
    (hbad : pyFloatOfChars (pyStrip cfg.buffer) = none) :
    update_qfx_contents (pre ++ '<' :: post) mn =
      .error (.valueError (pyStrip cfg.buffer) cfg.line_number
        (cfg.category_stack.map stripAngle ++ [stripAngle TARGET_PROPERTY])) := by
  unfold update_qfx_contents update_qfx_contents_with
  rw [runFrom_append, hrun]
  dsimp only
  have hstep : step TARGET_PROPERTY TARGET_CATEGORY mn cfg '<' =
      .error (.valueError (pyStrip cfg.buffer) cfg.line_number
        (cfg.category_stack.map stripAngle ++ [stripAngle TARGET_PROPERTY])) := by
    obtain ⟨st, ct, lf, stk, out, buf, fd, fl, ln⟩ := cfg
    simp only at hst htag htop hbad ⊢
    subst hst htag
    have hfv : flip_value buf mn = .error () := by
      unfold flip_value
      dsimp only
      rw [hbad]
    simp [step, stepCore, handleValueEnd, htop, hfv]
  rw [runFrom_cons_error _ _ _ _ _ _ _ hstep]

/-- Witness for **C6** (amended): the ASCII prefix `<LEDGERBAL><BALAMT>abc`
reaches the matched path with the unparseable fragment `abc`; once a `'<'`
follows, the call fails with the full diagnostic. -/
theorem claim_C6_witness :
    update_qfx_contents
        ("<LEDGERBAL><BALAMT>abc".data ++ '<' :: "/BALAMT></LEDGERBAL>".data) true =
      .error (.valueError "abc".data 1 [[], "LEDGERBAL".data, "BALAMT".data]) :=
  claim_C6 true "<LEDGERBAL><BALAMT>abc".data "/BALAMT></LEDGERBAL>".data
    { state := .VALUE
      current_tag := "<BALAMT>".data
      current_tag_is_leaf := false
      category_stack := [[], "<LEDGERBAL>".data]
      output := [[], "<LEDGERBAL>".data, [], "<BALAMT>".data]
      buffer := "abc".data
      value_found_count := 0
      value_flipped_count := 0
      line_number := 1 }
    (by decide) rfl rfl rfl rfl rfl

/-- **C8**: applying make-negative twice in succession to any document on
which the first application succeeds yields final text identical to applying
it once: the output of one make-negative pass is a fixed point of a second
make-negative pass, which reports changed=false and therefore returns its
input string itself.  Proved for every document via the forward simulation
`runFrom_sim`: the second pass tracks the first through identical control
states and never flips (kept fragments still have the correct sign, flipped
fragments re-parse with the correct sign). -/
theorem claim_C8 (d t : List Char) (f c : Bool)
    (h : update_qfx_contents d true = .ok (t, f, c)) :
    ∃ f', update_qfx_contents t true = .ok (t, f', false) := by
  unfold update_qfx_contents update_qfx_contents_with at h
  rcases hr : runFrom TARGET_PROPERTY TARGET_CATEGORY true initConfig d with e | cfg1 <;>
    rw [hr] at h
  · exact absurd h (by simp)
  · simp only [Except.ok.injEq, Prod.mk.injEq] at h
    obtain ⟨ht, hf, hc⟩ := h
    by_cases h0 : cfg1.value_flipped_count = 0
    · rw [if_pos h0] at ht
      subst ht
      refine ⟨decide (1 ≤ cfg1.value_found_count), ?_⟩
      unfold update_qfx_contents update_qfx_contents_with
      rw [hr]
      simp [h0]
    · rw [if_neg h0] at ht
      subst ht
      obtain ⟨cfg2, hrun2, hfl2⟩ :=
        rescan_no_flip TARGET_PROPERTY TARGET_CATEGORY true d cfg1 hr
      refine ⟨decide (1 ≤ cfg2.value_found_count), ?_⟩
      unfold update_qfx_contents update_qfx_contents_with
      have hflat : List.flatten (cfg1.output ++ [cfg1.buffer]) =
          cfg1.output.flatten ++ cfg1.buffer := by
        simp
      rw [hflat, hrun2]
      simp [hfl2]

/-- Witness for **C8**: `150.00` flips once to `-150.0`; a second
make-negative pass reports changed=false and returns that text itself. -/
theorem claim_C8_witness :
    ∃ f', update_qfx_contents "<LEDGERBAL><BALAMT>-150.0</BALAMT></LEDGERBAL>".data true =
      .ok ("<LEDGERBAL><BALAMT>-150.0</BALAMT></LEDGERBAL>".data, f', false) :=
  claim_C8 "<LEDGERBAL><BALAMT>150.00</BALAMT></LEDGERBAL>".data
    "<LEDGERBAL><BALAMT>-150.0</BALAMT></LEDGERBAL>".data true true rfl

/-- Round trip on the canonical single-target document family, in the
model's exact-decimal semantics: make-negative then make-positive yields a
parseable final target fragment whose denoted absolute value equals the
original's. -/
lemma targetDoc_roundtrip_abs (v : List Char) (x : PyFloat) (hlt : '<' ∉ v)
    (hparse : pyFloatOfChars (pyStrip v) = some x) :
    ∃ (v1 v2 : List Char) (y : PyFloat) (f1 c1 f2 c2 : Bool),
      update_qfx_contents (targetDoc v) true = .ok (targetDoc v1, f1, c1) ∧
      update_qfx_contents (targetDoc v1) false = .ok (targetDoc v2, f2, c2) ∧
      pyFloatOfChars (pyStrip v2) = some y ∧
      y.pyAbs.toRat = x.pyAbs.toRat := by
  have hne := pyStrip_ne_nil_of_parse v x hparse
  have hifT : ∀ a b : PyFloat, (if true then a else b) = a := fun a b => rfl
  have hifF : ∀ a b : PyFloat, (if false then a else b) = b := fun a b => rfl
  cases x with
  | nan =>
    refine ⟨v, v, .nan, true, false, true, false, ?_, ?_, hparse, rfl⟩
    · exact update_targetDoc_noflip v true .nan hlt hparse rfl
    · exact update_targetDoc_noflip v false .nan hlt hparse rfl
  | ninf =>
    obtain ⟨hstrip2, -, -, hlt2⟩ := flipped_fragment v PyFloat.ninf.pyAbs hne
    refine ⟨v, pyReplace v (pyStrip v) (pyFloatStr PyFloat.ninf.pyAbs), .inf,
      true, false, true, true, ?_, ?_, ?_, rfl⟩
    · exact update_targetDoc_noflip v true .ninf hlt hparse rfl
    · have := update_targetDoc_flip v false .ninf hlt hparse rfl
      rwa [hifF] at this
    · rw [hstrip2]
      exact pyFloatOfChars_inf
  | inf =>
    obtain ⟨hstrip1, -, -, hlt1⟩ := flipped_fragment v PyFloat.inf.pyAbs.pyNeg hne
    set v1 := pyReplace v (pyStrip v) (pyFloatStr PyFloat.inf.pyAbs.pyNeg) with hv1
    have hparse1 : pyFloatOfChars (pyStrip v1) = some .ninf := by
      rw [hstrip1]
      exact pyFloatOfChars_ninf
    have hne1 := pyStrip_ne_nil_of_parse v1 .ninf hparse1
    obtain ⟨hstrip2, -, -, hlt2⟩ := flipped_fragment v1 PyFloat.ninf.pyAbs hne1
    refine ⟨v1, pyReplace v1 (pyStrip v1) (pyFloatStr PyFloat.ninf.pyAbs), .inf,
      true, true, true, true, ?_, ?_, ?_, rfl⟩
    · have := update_targetDoc_flip v true .inf hlt hparse rfl
      rwa [hifT] at this
    · have := update_targetDoc_flip v1 false .ninf (hlt1 hlt) hparse1 rfl
      rwa [hifF] at this
    · rw [hstrip2]
      exact pyFloatOfChars_inf
  | finite n s =>
    rcases lt_trichotomy n 0 with hn | hn | hn
    · -- already negative: first pass is a no-op, second flips to the absolute value
      have hcond1 : (((PyFloat.finite n s).isPos && true) ||
          ((PyFloat.finite n s).isNeg && !true)) = false := by
        simp [PyFloat.isPos, PyFloat.isNeg]
        omega
      have hcond2 : (((PyFloat.finite n s).isPos && false) ||
          ((PyFloat.finite n s).isNeg && !false)) = true := by
        simp [PyFloat.isPos, PyFloat.isNeg, hn]
      obtain ⟨m, c, hpr, hval, hposx, hnegx⟩ := pyFloatStr_roundtrip ((n.natAbs : Int)) s
      obtain ⟨hstrip2, -, -, hlt2⟩ := flipped_fragment v (PyFloat.finite n s).pyAbs hne
      refine ⟨v, pyReplace v (pyStrip v) (pyFloatStr (PyFloat.finite n s).pyAbs),
        .finite m c, true, false, true, true, ?_, ?_, ?_, ?_⟩
      · exact update_targetDoc_noflip v true _ hlt hparse hcond1
      · have := update_targetDoc_flip v false _ hlt hparse hcond2
        rwa [hifF] at this
      · rw [hstrip2]
        exact hpr
      · rw [pyAbs_toRat, pyAbs_toRat]
        have e : (PyFloat.finite m c).toRat = (PyFloat.finite ((n.natAbs : Int)) s).toRat :=
          toRat_eq_of_cross _ _ _ _ hval
        have eAbs : (PyFloat.finite ((n.natAbs : Int)) s).toRat =
            |(PyFloat.finite n s).toRat| := by
          have h1 : (PyFloat.finite n s).pyAbs = .finite ((n.natAbs : Int)) s := rfl
          rw [← h1, pyAbs_toRat]
        rw [e, eAbs, abs_abs]
    · -- exactly zero: nothing flips in either direction
      subst hn
      have hcond1 : (((PyFloat.finite 0 s).isPos && true) ||
          ((PyFloat.finite 0 s).isNeg && !true)) = false := by
        simp [PyFloat.isPos, PyFloat.isNeg]
      have hcond2 : (((PyFloat.finite 0 s).isPos && false) ||
          ((PyFloat.finite 0 s).isNeg && !false)) = false := by
        simp [PyFloat.isPos, PyFloat.isNeg]
      refine ⟨v, v, .finite 0 s, true, false, true, false, ?_, ?_, hparse, rfl⟩
      · exact update_targetDoc_noflip v true _ hlt hparse hcond1
      · exact update_targetDoc_noflip v false _ hlt hparse hcond2
    · -- positive: flipped to its negation, then flipped back to the absolute value
      have hcond1 : (((PyFloat.finite n s).isPos && true) ||
          ((PyFloat.finite n s).isNeg && !true)) = true := by
        simp [PyFloat.isPos, PyFloat.isNeg, hn]
      obtain ⟨m1, c1, hpr1, hval1, hpos1, hneg1⟩ :=
        pyFloatStr_roundtrip (-(n.natAbs : Int)) s
      obtain ⟨hstrip1, -, -, hlt1⟩ :=
        flipped_fragment v (PyFloat.finite n s).pyAbs.pyNeg hne
      set v1 := pyReplace v (pyStrip v) (pyFloatStr (PyFloat.finite n s).pyAbs.pyNeg)
        with hv1
      have hparse1 : pyFloatOfChars (pyStrip v1) = some (.finite m1 c1) := by
        rw [hstrip1]
        exact hpr1
      have hm1 : m1 < 0 := by
        rw [hneg1]
        omega
      have hcond2 : (((PyFloat.finite m1 c1).isPos && false) ||
          ((PyFloat.finite m1 c1).isNeg && !false)) = true := by
        simp [PyFloat.isPos, PyFloat.isNeg, hm1]
      have hne1 := pyStrip_ne_nil_of_parse v1 _ hparse1
      obtain ⟨hstrip2, -, -, hlt2⟩ := flipped_fragment v1 (PyFloat.finite m1 c1).pyAbs hne1
      obtain ⟨m2, c2, hpr2, hval2, hpos2, hneg2⟩ :=
        pyFloatStr_roundtrip ((m1.natAbs : Int)) c1
      refine ⟨v1, pyReplace v1 (pyStrip v1) (pyFloatStr (PyFloat.finite m1 c1).pyAbs),
        .finite m2 c2, true, true, true, true, ?_, ?_, ?_, ?_⟩
      · have := update_targetDoc_flip v true _ hlt hparse hcond1
        rwa [hifT] at this
      · have := update_targetDoc_flip v1 false _ (hlt1 hlt) hparse1 hcond2
        rwa [hifF] at this
      · rw [hstrip2]
        exact hpr2
      · rw [pyAbs_toRat, pyAbs_toRat]
        have e2 : (PyFloat.finite m2 c2).toRat =
            (PyFloat.finite ((m1.natAbs : Int)) c1).toRat :=
          toRat_eq_of_cross _ _ _ _ hval2
        have eAbs : (PyFloat.finite ((m1.natAbs : Int)) c1).toRat =
            |(PyFloat.finite m1 c1).toRat| := by
          have h1 : (PyFloat.finite m1 c1).pyAbs = .finite ((m1.natAbs : Int)) c1 := rfl
          rw [← h1, pyAbs_toRat]
        have e1 : (PyFloat.finite m1 c1).toRat =
            (PyFloat.finite (-(n.natAbs : Int)) s).toRat :=
          toRat_eq_of_cross _ _ _ _ hval1
        have eN : (PyFloat.finite (-(n.natAbs : Int)) s).toRat =
            -|(PyFloat.finite n s).toRat| := by
          have h1 : (PyFloat.finite n s).pyAbs.pyNeg = .finite (-(n.natAbs : Int)) s := rfl
          rw [← h1, pyNeg_toRat, pyAbs_toRat]
        rw [e2, eAbs, e1, eN, abs_neg, abs_abs, abs_abs]

/-- Concrete instance of the round-trip lemma: `150.00` goes to `-150.0`
and back to `150.0`, with magnitude `150` throughout. -/
lemma targetDoc_roundtrip_abs_example :
    ∃ (v1 v2 : List Char) (y : PyFloat) (f1 c1 f2 c2 : Bool),
      update_qfx_contents (targetDoc "150.00".data) true = .ok (targetDoc v1, f1, c1) ∧
      update_qfx_contents (targetDoc v1) false = .ok (targetDoc v2, f2, c2) ∧
      pyFloatOfChars (pyStrip v2) = some y ∧
      y.pyAbs.toRat = (PyFloat.finite 15000 2).pyAbs.toRat :=
  targetDoc_roundtrip_abs "150.00".data (.finite 15000 2) (by decide) rfl

/-- **C10**: whenever `update_qfx_contents` returns normally, the
value-changed flag implies the value-found flag (the flipped counter never
overtakes the found counter), and the returned text can differ from the input
only when the value was found. -/
theorem claim_C10 (file_contents : List Char) (make_negative : Bool)
    (t : List Char) (f c : Bool)
    (h : update_qfx_contents file_contents make_negative = .ok (t, f, c)) :
    (c = true → f = true) ∧ (t ≠ file_contents → f = true) := by
  unfold update_qfx_contents update_qfx_contents_with at h
  rcases hr : runFrom TARGET_PROPERTY TARGET_CATEGORY make_negative initConfig
      file_contents with e | cfg <;> rw [hr] at h
  · exact absurd h (by simp)
  · simp only [Except.ok.injEq, Prod.mk.injEq] at h
    obtain ⟨ht, hf, hc⟩ := h
    have hle := runFrom_counts_le _ _ _ _ _ _ hr (by simp [initConfig])
    subst ht hf hc
    constructor
    · intro hct
      simp only [decide_eq_true_eq] at hct ⊢
      omega
    · intro hne
      simp only [decide_eq_true_eq]
      by_cases h0 : cfg.value_flipped_count = 0
      · rw [if_pos h0] at hne
        exact absurd rfl hne
      · omega

/-- Witness for **C10** at a concrete input. -/
theorem claim_C10_witness :
    (true = true → true = true) ∧
    ("<LEDGERBAL><BALAMT>-150.0</BALAMT></LEDGERBAL>".data ≠
        "<LEDGERBAL><BALAMT>150.00</BALAMT></LEDGERBAL>".data → true = true) :=
  claim_C10 "<LEDGERBAL><BALAMT>150.00</BALAMT></LEDGERBAL>".data true
    "<LEDGERBAL><BALAMT>-150.0</BALAMT></LEDGERBAL>".data true true rfl

end CreditBalanceFlipper
